import Mathlib

/-!
# Verification of the breast-cancer clinical-trials pipeline

Shallow embedding of the parts of the repository needed by the claims:

* `src/processing/endpoints_layer.py` — canonical endpoints, rule matching,
  per-row endpoint annotation (Layer A);
* `src/processing/reporting_layer.py` — reporting-gap flag and the seven
  CONSORT results flags (Layer B);
* `src/processing/pipeline.py` together with `src/utils/io.py` — the
  enrichment-pipeline orchestrator and its missing-input behaviour;
* `src/analytics/common.py`, `src/analytics/01_momentum.py`,
  `src/analytics/07_priority_shortlists.py` — derived fields, the shared
  eligibility policy, and the four priority shortlists;
* `src/taug_extraction/rollup_dictionary.py` — dictionary roll-up
  (canonicalisation, bucketing, alias seeding, synonym union);
* `src/retrieval/clinicaltrials_api.py` — paginated accumulation of trials,
  first-seen deduplication and site deduplication;
* `src/utils/helpers.py` — the retry-with-backoff decorator.

Modelling conventions, used throughout:

* Python strings are Lean `String`s; helper functions over characters mirror
  the regular expressions of the source character-by-character.  Inputs are
  ASCII wherever case folding matters, so `lower()` is modelled by an
  ASCII-only lowercase map.
* A pandas cell that can be missing (None / NaN / empty text) is an
  `Option`; `none` stands for every falsy value of the cell.
* A CSV cell holding compact JSON text (the `results_*` blobs) is modelled
  as its parsed value: `none` stands for absent, blank or unparseable text
  (what `_json_or_none` maps to `None`), `some v` for a successfully parsed
  value of the compact shape written by the retrieval extractor.
* Python `dict`s with insertion order are association lists; assignment to
  an existing key replaces in place, assignment to a fresh key appends.
* File writes are modelled as returned values, network calls as function
  arguments (oracles).
-/

/-! ## Generic string helpers (models of the `re` idioms of the source) -/

/-- Characters matched by Python `\s`. -/
def isPyWs (c : Char) : Bool :=
  c = ' ' || c = '\t' || c = '\n' || c = '\r' ||
  c = (Char.ofNat 11) || c = (Char.ofNat 12)

/-- ASCII-only lowercase of one character (model of `str.lower` on the
ASCII inputs of this program). -/
def asciiLowerChar (c : Char) : Char :=
  if 'A' ≤ c && c ≤ 'Z' then Char.ofNat (c.toNat + 32) else c

/-- ASCII-only lowercase of a string. -/
def asciiLower (s : String) : String :=
  ⟨s.data.map asciiLowerChar⟩

/-- Replace every maximal run of characters satisfying `p` by a single
`rep`; the `inRun` flag records whether the previous character was in a
run.  Models `re.sub(r"<class>+", rep, s)`. -/
def squashRunsAux (p : Char → Bool) (rep : Char) : Bool → List Char → List Char
  | _, [] => []
  | inRun, c :: rest =>
    if p c then
      if inRun then squashRunsAux p rep true rest
      else rep :: squashRunsAux p rep true rest
    else c :: squashRunsAux p rep false rest

def squashRuns (p : Char → Bool) (rep : Char) (l : List Char) : List Char :=
  squashRunsAux p rep false l

/-- Drop the characters satisfying `p` from both ends. -/
def trimBy (p : Char → Bool) (l : List Char) : List Char :=
  ((l.dropWhile p).reverse.dropWhile p).reverse

/-- Model of `utils.helpers.normalize_ws`: collapse whitespace runs to one
space and trim. -/
def normalize_ws (s : String) : String :=
  ⟨trimBy (· = ' ') (squashRuns isPyWs ' ' s.data)⟩

/-- Model of Python `str.strip()`. -/
def stripWs (s : String) : String :=
  ⟨trimBy isPyWs s.data⟩

/-- `needle.isPrefixOf hay` and the character of `hay` right after the
match, if any, is not a word character (models a trailing `\b` after a
keyword that ends in a word character). -/
def prefixThenNonWord (isWord : Char → Bool) : List Char → List Char → Bool
  | [], [] => true
  | [], c :: _ => !isWord c
  | _ :: _, [] => false
  | k :: ks, c :: cs => k = c && prefixThenNonWord isWord ks cs

/-- Python `needle in hay` substring test on character lists. -/
def isSubstrList (needle : List Char) : List Char → Bool
  | [] => needle.isEmpty
  | c :: rest => needle.isPrefixOf (c :: rest) || isSubstrList needle rest

/-- Python `needle in hay` substring test on strings. -/
def isSubstr (needle hay : String) : Bool :=
  isSubstrList needle.data hay.data

/-- Keep-first deduplication, as Python `dict.fromkeys` / a `seen` set. -/
def dedupFAux [DecidableEq α] (seen : List α) : List α → List α
  | [] => []
  | a :: rest =>
    if a ∈ seen then dedupFAux seen rest
    else a :: dedupFAux (seen ++ [a]) rest

def dedupF [DecidableEq α] (l : List α) : List α :=
  dedupFAux [] l

/-! ## `processing/endpoints_layer.py` -/

/-- `CANONICAL_ENDPOINTS` (endpoints_layer.py lines 7–23). -/
def CANONICAL_ENDPOINTS : List String :=
  [ "Pathologic Complete Response",
    "Event-Free Survival",
    "Disease-Free Survival",
    "Overall Survival",
    "Best Overall Response",
    "Duration of Response",
    "Progression-Free Survival",
    "Overall Response",
    "Target Response",
    "Non-target Response",
    "Symptomatic Deterioration",
    "Disease Recurrence",
    "Pathologic Complete Response (pCR)",
    "Objective Response Rate",
    "Time to Progression" ]

/-- Word characters of Python `\w` (`[A-Za-z0-9_]`, ASCII inputs). -/
def isWordChar (c : Char) : Bool :=
  ('a' ≤ c && c ≤ 'z') || ('A' ≤ c && c ≤ 'Z') || ('0' ≤ c && c ≤ '9') || c = '_'

/-- `canonical_to_col`: `re.sub(r"[^\w]+", "_", name).strip("_")` — every
maximal run of non-word characters becomes one underscore, then
underscores are stripped from both ends. -/
def canonical_to_col (name : String) : String :=
  ⟨trimBy (· = '_') (squashRuns (fun c => !isWordChar c) '_' name.data)⟩

/-- `CANONICAL_COLS` (endpoints_layer.py line 28). -/
def CANONICAL_COLS : List String :=
  CANONICAL_ENDPOINTS.map canonical_to_col

/-- Characters of the punctuation class of `norm_text`: whitespace,
hyphen, slash, underscore, comma, period, colon, semicolon, parentheses,
braces and square brackets. -/
def isPunctRe (c : Char) : Bool :=
  isPyWs c || c = '-' || c = '/' || c = '_' || c = ',' || c = '.' ||
  c = ':' || c = ';' || c = '(' || c = ')' ||
  c = (Char.ofNat 123) || c = (Char.ofNat 125) || c = '[' || c = ']'

/-- `norm_text`: lowercase, strip, punctuation runs to a space, collapse
whitespace, strip.  Character-wise this is: lowercase, map every
punctuation-or-space character to a space, collapse space runs, trim. -/
def norm_text (s : String) : String :=
  ⟨trimBy (· = ' ')
    (squashRuns (· = ' ') ' '
      (s.data.map (fun c => if isPunctRe c then ' ' else asciiLowerChar c)))⟩

/-- Endpoint resources: the synonym map (insertion-ordered `dict`,
normalised keys) and the canonical endpoint tuple. -/
structure EndpointResources where
  synonyms : List (String × String)
  canonical : List String

/-- `rule_match_canonical` (endpoints_layer.py lines 71–81). -/
def rule_match_canonical (text : String) (synonyms : List (String × String))
    (canonical : List String) : Option String :=
  if text = "" then none
  else
    let t := norm_text text
    match synonyms.find? (fun kv =>
        kv.1 ≠ "" && isSubstr kv.1 t && canonical.contains kv.2) with
    | some kv => some kv.2
    | none => canonical.find? (fun cname => isSubstr (norm_text cname) t)

/-- The LLM client for endpoint classification.  `classify_endpoint`
models `OpenAIClient.classify_endpoint`, whose every failure path returns
`None` and which returns a label only after checking membership in the
label set (`openai_client.py` line 37: `val if val in label_set else
None`); that membership check is carried as `mem`. -/
structure LLMClient where
  classify_endpoint : String → List String → Option String
  mem : ∀ t ls r, classify_endpoint t ls = some r → r ∈ ls

/-- `llm_map_endpoint` (endpoints_layer.py lines 87–93): no client or
empty text short-circuits to `None`; failures inside the call already
yield `None` in the model of `classify_endpoint`. -/
def llm_map_endpoint (text : String) (client : Option LLMClient)
    (labelSet : List String) : Option String :=
  match client with
  | none => none
  | some f => if text = "" then none else f.classify_endpoint text labelSet

/-- One phrase of the Layer A loop (endpoints_layer.py lines 112–114),
instrumented with a flag recording whether the LLM fallback was invoked
(`true` exactly when `llm_map_endpoint` actually calls
`client.classify_endpoint`: the rule found nothing, a client is present
and the phrase is non-empty). -/
def classify_phrase_tracked (txt : String) (resources : EndpointResources)
    (client : Option LLMClient) : Option String × Bool :=
  match rule_match_canonical txt resources.synonyms resources.canonical with
  | some c => (some c, false)
  | none =>
    (llm_map_endpoint txt client resources.canonical,
     client.isSome && txt ≠ "")

/-- A planned-outcomes cell (`planned_primary_outcomes` /
`planned_secondary_outcomes`).  `absent` covers None and NaN; `jsonList`
covers both a genuine list cell and a string holding a JSON array of
titles (modelled already parsed); `plain` covers every other string. -/
inductive OutcomeCell where
  | absent
  | jsonList (items : List String)
  | plain (s : String)

/-- `parse_outcome_cell` (endpoints_layer.py lines 50–69). -/
def parse_outcome_cell : OutcomeCell → List String
  | .absent => []
  | .jsonList items => items
  | .plain s =>
    let t := stripWs s
    if t = "" then [] else [t]

/-- The separator class of the Layer A splitter.  The source file holds
the UTF-8 bytes of a bullet decoded as Latin-1, so the class is literally
`;`, U+00E2, U+20AC, U+00A2, `\n`, `\r`. -/
def isEndpointSep (c : Char) : Bool :=
  c = ';' || c = (Char.ofNat 0xE2) || c = (Char.ofNat 0x20AC) ||
  c = (Char.ofNat 0xA2) || c = '\n' || c = '\r'

/-- Split a character list into maximal runs of non-separator characters
(the non-empty pieces of `re.split`). -/
def splitSepsAux : List Char → List Char → List (List Char)
  | acc, [] => if acc.isEmpty then [] else [acc.reverse]
  | acc, c :: rest =>
    if isEndpointSep c then
      if acc.isEmpty then splitSepsAux [] rest
      else acc.reverse :: splitSepsAux [] rest
    else splitSepsAux (c :: acc) rest

/-- Pieces of one chunk: split on the separator class, strip each piece,
keep the non-empty ones (`[p.strip() for p in re.split(...) if p.strip()]`). -/
def splitChunk (chunk : String) : List String :=
  ((splitSepsAux [] chunk.data).map (fun piece => stripWs ⟨piece⟩)).filter (· ≠ "")

/-- The phrase list of Layer A (endpoints_layer.py lines 103–108): empty
chunks are skipped; a chunk whose pieces all strip to nothing contributes
itself. -/
def buildTexts (chunks : List String) : List String :=
  chunks.foldl (fun acc chunk =>
    if chunk = "" then acc
    else
      let parts := splitChunk chunk
      acc ++ (if parts.isEmpty then [chunk] else parts)) []

/-- Output of Layer A for one row.  `detected_endpoint_names` is the list
that the source serialises with `json.dumps`. -/
structure EpRes where
  flags : List (String × Nat)
  detected_endpoint_names : List String
  planned_endpoint_count : Nat

/-- Python `dict` assignment on an association list: replace in place if
the key exists, append otherwise. -/
def setKey (l : List (String × Nat)) (k : String) (v : Nat) : List (String × Nat) :=
  if l.any (fun p => p.1 = k) then
    l.map (fun p => if p.1 = k then (k, v) else p)
  else l ++ [(k, v)]

/-- The matching loop of Layer A (endpoints_layer.py lines 110–118).  In
the source `seen` and `matched` always hold the same names (`seen` a set,
`matched` in order); a single ordered list models both. -/
def epLoop (resources : EndpointResources) (client : Option LLMClient) :
    List String → List String → List (String × Nat) → List String × List (String × Nat)
  | [], matched, res => (matched, res)
  | txt :: rest, matched, res =>
    match (classify_phrase_tracked txt resources client).1 with
    | some c =>
      if matched.contains c then epLoop resources client rest matched res
      else epLoop resources client rest (matched ++ [c])
        (setKey res (canonical_to_col c) 1)
    | none => epLoop resources client rest matched res

/-! ## Parsed shapes of the compact results JSON (`retrieval` extractor
output, consumed by `processing/reporting_layer.py`).  Only the pieces the
reporting layer inspects are carried; `Option String` fields use `none`
for an absent, null or empty (falsy) value. -/

/-- One measurement dict inside `classes → categories → measurements`.
The three booleans record presence of the `value`, `lowerLimit` and
`upperLimit` keys (the layer only tests key presence). -/
structure MeasurementRec where
  hasValue : Bool
  hasLower : Bool
  hasUpper : Bool

structure CategoryRec where
  measurements : List MeasurementRec

structure OMClassRec where
  categories : List CategoryRec

/-- One entry of the parsed `results_outcome_measures` list. -/
structure OutcomeMeasureRec where
  title : Option String
  paramType : Option String
  dispersionType : Option String
  classes : List OMClassRec

/-- Parsed `results_participant_flow`: the compact form is an object with
one `periods` key, so any parsed value is a truthy (non-empty) dict. -/
structure ParticipantFlowRec where
  periods : List Unit

/-- The trial row as seen by Layers A and B.  `flags` are the endpoint
flag columns present on the row dict (empty before Layer A runs;
populated once the pipeline merges Layer A's output). -/
structure TrialRow where
  planned_primary_outcomes : OutcomeCell
  planned_secondary_outcomes : OutcomeCell
  start_date : Option String
  primary_completion_date : Option String
  completion_date : Option String
  results_outcome_measures : Option (List OutcomeMeasureRec)
  results_participant_flow : Option ParticipantFlowRec
  results_baseline : Option (List Unit)
  results_adverse_events : Option (List Unit)
  flags : List (String × Nat)

/-- `annotate_endpoints_for_row` (endpoints_layer.py lines 95–122). -/
def annotate_endpoints_for_row (row : TrialRow) (resources : EndpointResources)
    (client : Option LLMClient) : EpRes :=
  let res0 := resources.canonical.map (fun c => (canonical_to_col c, 0))
  let prim := parse_outcome_cell row.planned_primary_outcomes
  let sec := parse_outcome_cell row.planned_secondary_outcomes
  let texts := buildTexts (prim ++ sec)
  let st := epLoop resources client texts [] res0
  { flags := st.2
    detected_endpoint_names := st.1
    planned_endpoint_count := st.1.length }

/-! ## `processing/reporting_layer.py` -/

/-- `_collect_reported_endpoint_titles` (reporting_layer.py lines 18–30):
a falsy parse (`none`, or an empty parsed list) yields no titles;
otherwise the stripped non-empty titles are collected in order. -/
def collect_reported_endpoint_titles
    (cell : Option (List OutcomeMeasureRec)) : List String :=
  match cell with
  | none => []
  | some l =>
    l.filterMap (fun m =>
      match m.title with
      | some t => let ts := stripWs t; if ts = "" then none else some ts
      | none => none)

/-- `_map_reported_to_canonical` (reporting_layer.py lines 32–42): rule
match first, LLM fallback second, keep-first deduplication via `seen`. -/
def map_reported_to_canonical (titles : List String)
    (resources : EndpointResources) (client : Option LLMClient) : List String :=
  titles.foldl (fun mapped t =>
    let cname :=
      match rule_match_canonical t resources.synonyms resources.canonical with
      | some c => some c
      | none =>
        match client with
        | some f => f.classify_endpoint t resources.canonical
        | none => none
    match cname with
    | some c => if mapped.contains c then mapped else mapped ++ [c]
    | none => mapped) []

/-- Endpoint flag column read of the reporting layer:
`int(row.get(col, 0)) == 1` with default `0`. -/
def rowFlag (row : TrialRow) (col : String) : Nat :=
  match row.flags.find? (fun p => p.1 = col) with
  | some p => p.2
  | none => 0

/-- `_has_numbers_analyzed` (reporting_layer.py lines 97–113): some
measurement anywhere under `classes → categories → measurements` has a
`value` key. -/
def has_numbers_analyzed (cell : Option (List OutcomeMeasureRec)) : Bool :=
  match cell with
  | none => false
  | some l =>
    l.any (fun m =>
      m.classes.any (fun cls =>
        cls.categories.any (fun cat =>
          cat.measurements.any (fun meas => meas.hasValue))))

/-- `_any_ci_limits` (reporting_layer.py lines 128–134). -/
def any_ci_limits (m : OutcomeMeasureRec) : Bool :=
  m.classes.any (fun cls =>
    cls.categories.any (fun cat =>
      cat.measurements.any (fun meas => meas.hasLower || meas.hasUpper)))

/-- `_has_estimates_with_precision` (reporting_layer.py lines 115–126). -/
def has_estimates_with_precision (cell : Option (List OutcomeMeasureRec)) : Bool :=
  match cell with
  | none => false
  | some l =>
    l.any (fun m =>
      m.paramType.isSome && (m.dispersionType.isSome || any_ci_limits m))

/-- Keywords of `_ANCILLARY_PATTERNS` (lowercased; `post[- ]hoc` expands
to its two alternatives). -/
def ancillaryKeywords : List String :=
  ["subgroup", "post-hoc", "post hoc", "exploratory", "adjusted",
   "interaction", "sensitivity"]

/-- Case-insensitive `\b<kw>\b` search: at some position the keyword is a
prefix of the remaining text, the previous character (if any) is not a
word character, and the character right after the match (if any) is not a
word character.  Every keyword begins and ends with a word character, so
this is exactly the word-boundary semantics of the pattern. -/
def wordSearchAux (kw : List Char) : Option Char → List Char → Bool
  | prev, hay =>
    ((match prev with
      | none => true
      | some c => !isWordChar c) && prefixThenNonWord isWordChar kw hay) ||
    (match hay with
     | [] => false
     | c :: rest => wordSearchAux kw (some c) rest)

def containsWordCI (kw : String) (text : String) : Bool :=
  wordSearchAux kw.data none (asciiLower text).data

/-- `_has_ancillary_signals` (reporting_layer.py lines 140–145); the
optional LLM judgement is commented out in the source, so the client is
unused. -/
def has_ancillary_signals (titles : List String)
    (client : Option LLMClient) : Bool :=
  titles.any (fun t => ancillaryKeywords.any (fun kw => containsWordCI kw t))

/-- Output of Layer B for one row. -/
structure RepRes where
  reporting_gap_flag : Nat
  consort_participant_flow : Nat
  consort_recruitment : Nat
  consort_baseline : Nat
  consort_numbers_analyzed : Nat
  consort_outcomes_estimation : Nat
  consort_ancillary_analyses : Nat
  consort_harms : Nat
  consort_results_score : Nat

/-- `annotate_reporting_for_row` (reporting_layer.py lines 44–95). -/
def annotate_reporting_for_row (row : TrialRow) (resources : EndpointResources)
    (client : Option LLMClient) : RepRes :=
  let planned := resources.canonical.filter
    (fun cname => rowFlag row (canonical_to_col cname) = 1)
  let titles := collect_reported_endpoint_titles row.results_outcome_measures
  let reported := map_reported_to_canonical titles resources client
  let gap := if planned.any (fun p => !reported.contains p) then 1 else 0
  let cpf := if row.results_participant_flow.isSome then 1 else 0
  let crec := if row.start_date.isSome &&
      (row.primary_completion_date.isSome || row.completion_date.isSome)
    then 1 else 0
  let cbase := match row.results_baseline with
    | some l => if l.isEmpty then 0 else 1
    | none => 0
  let cnum := if has_numbers_analyzed row.results_outcome_measures then 1 else 0
  let cest := if has_estimates_with_precision row.results_outcome_measures then 1 else 0
  let canc := if has_ancillary_signals titles client then 1 else 0
  let charms := match row.results_adverse_events with
    | some l => if l.isEmpty then 0 else 1
    | none => 0
  { reporting_gap_flag := gap
    consort_participant_flow := cpf
    consort_recruitment := crec
    consort_baseline := cbase
    consort_numbers_analyzed := cnum
    consort_outcomes_estimation := cest
    consort_ancillary_analyses := canc
    consort_harms := charms
    consort_results_score :=
      cpf + crec + cbase + cnum + cest + canc + charms }

/-! ## `processing/pipeline.py` with `utils/io.py`

The raw CSV is an `Option (List TrialRow)`: `none` models an absent file.
File writes are modelled as the returned `PipelineOutputs`.  Layer C
(`classify_layer.py`) is passed in as a function — no claim depends on its
internals — but its output shape is the source's. -/

/-- Output of Layer C (`annotate_classification_for_row`). -/
structure ClsRes where
  HER2_flag : Nat
  BRCAm_flag : Nat
  NM_new_medicine : Nat
  EI_extension_of_indication : Nat
  nm_ei_explanation : Option String

/-- `read_csv_safely` (io.py lines 94–98): a missing file becomes an
empty table. -/
def read_csv_safely (input : Option (List TrialRow)) : List TrialRow :=
  match input with
  | none => []
  | some rows => rows

/-- One fully enriched row: the row dict after the three `update` calls. -/
structure EnrichedRow where
  base : TrialRow
  ep : EpRes
  rep : RepRes
  cls : ClsRes

/-- The files the pipeline writes: the final dataset in three formats and
the periodic checkpoints (`enhanced_ckpt`, overwritten every 100 rows —
kept here as the list of successive snapshots). -/
structure PipelineOutputs where
  out_csv : List EnrichedRow
  out_parquet : List EnrichedRow
  out_jsonl : List EnrichedRow
  checkpoints : List (List EnrichedRow)

/-- `rowd.update(ep_cols)` for the endpoint flag columns: each flag column
of Layer A's output is written onto the row dict. -/
def mergeFlags (row : TrialRow) (ep : EpRes) : TrialRow :=
  { row with flags := ep.flags.foldl (fun acc kv => setKey acc kv.1 kv.2) row.flags }

/-- One iteration of the pipeline row loop (pipeline.py lines 75–90):
Layer A, merge, Layer B on the merged row, Layer C. -/
def processPipelineRow (resources : EndpointResources) (client : Option LLMClient)
    (classifyRow : TrialRow → ClsRes) (row : TrialRow) : EnrichedRow :=
  let ep := annotate_endpoints_for_row row resources client
  let row2 := mergeFlags row ep
  let rep := annotate_reporting_for_row row2 resources client
  let cls := classifyRow row2
  { base := row2, ep := ep, rep := rep, cls := cls }

/-- `ROW_FLUSH_EVERY` (pipeline.py line 38). -/
def ROW_FLUSH_EVERY : Nat := 100

/-- `run` (pipeline.py lines 50–103).  An empty table short-circuits to
empty outputs in all three formats; otherwise rows are processed in
order, a checkpoint snapshot is taken every 100 rows, and the final
dataset is written three ways. -/
def runPipeline (input : Option (List TrialRow)) (resources : EndpointResources)
    (client : Option LLMClient) (classifyRow : TrialRow → ClsRes) : PipelineOutputs :=
  let df := read_csv_safely input
  if df.isEmpty then
    { out_csv := [], out_parquet := [], out_jsonl := [], checkpoints := [] }
  else
    let step := fun (st : List EnrichedRow × List (List EnrichedRow))
        (ir : Nat × TrialRow) =>
      let rows_out := st.1 ++ [processPipelineRow resources client classifyRow ir.2]
      let cks := if (ir.1 + 1) % ROW_FLUSH_EVERY = 0 then st.2 ++ [rows_out] else st.2
      (rows_out, cks)
    let acc := df.enum.foldl step ([], [])
    { out_csv := acc.1, out_parquet := acc.1, out_jsonl := acc.1,
      checkpoints := acc.2 }

/-! ## `analytics/common.py` and the shared eligibility policy

Calendar dates are modelled by the proleptic Gregorian day number (the
civil-from-days algorithm), which is the arithmetic pandas `Timestamp`
and `Timedelta(days=…)` perform at day resolution. -/

structure CivilDate where
  year : Int
  month : Int
  day : Int

/-- Day number of a civil date (days since 1970-01-01, proleptic
Gregorian).  Divisions are C-style truncating divisions on non-negative
operands, as in the standard algorithm. -/
def days_from_civil (dt : CivilDate) : Int :=
  let y := if dt.month ≤ 2 then dt.year - 1 else dt.year
  let era := (if 0 ≤ y then y else y - 399).tdiv 400
  let yoe := y - era * 400
  let mp := if 2 < dt.month then dt.month - 3 else dt.month + 9
  let doy := (153 * mp + 2).tdiv 5 + dt.day - 1
  let doe := yoe * 365 + yoe.tdiv 4 - yoe.tdiv 100 + doy
  era * 146097 + doe - 719468

/-- `ELIGIBILITY_LAG_DAYS` (01_momentum.py line 11). -/
def ELIGIBILITY_LAG_DAYS : Int := 365

/-- The shared eligibility policy (01_momentum.py line 66):
`pcd.notna() & (pcd <= today - Timedelta(days=365))`.  A missing or
unparseable primary completion date (`none`, pandas `NaT`) is never
eligible. -/
def momentum_eligible (pcd : Option CivilDate) (today : CivilDate) : Bool :=
  match pcd with
  | none => false
  | some p => days_from_civil p ≤ days_from_civil today - ELIGIBILITY_LAG_DAYS

/-! ## `analytics/07_priority_shortlists.py`

One enhanced-dataset row restricted to the columns the shortlists read.
`years_since_completion` comes from `add_derived` (common.py lines 84–91):
current year minus completion year, `none` (NaN) when the completion year
is missing; a pandas comparison against NaN is `False`. -/

structure AnalyticsRow where
  overall_status : Option String
  years_since_completion : Option Int
  reporting_gap_flag : Nat
  HER2_flag : Nat
  BRCAm_flag : Nat
  NM_new_medicine : Nat
  Objective_Response_Rate : Nat
  Progression_Free_Survival : Nat
  Overall_Survival : Nat
  Pathologic_Complete_Response_pCR : Nat

/-- `df["overall_status"].isin(["COMPLETED", "TERMINATED"])` — the
`completed` population (07_priority_shortlists.py line 13). -/
def statusCompletedOrTerminated (r : AnalyticsRow) : Bool :=
  match r.overall_status with
  | some s => s = "COMPLETED" || s = "TERMINATED"
  | none => false

/-- `completed["years_since_completion"] >= 3` — the `old` restriction
(07_priority_shortlists.py line 14); NaN compares false. -/
def yscAtLeast3 (r : AnalyticsRow) : Bool :=
  match r.years_since_completion with
  | some y => 3 ≤ y
  | none => false

/-- Row filter of `priority_missing_key_endpoints.csv` (lines 16–20):
computed over `old`, requiring a reporting gap and any of the four key
endpoint flags non-zero (`.any(axis=1)`). -/
def shortlist1Mem (r : AnalyticsRow) : Bool :=
  statusCompletedOrTerminated r && yscAtLeast3 r &&
  r.reporting_gap_flag = 1 &&
  (r.Objective_Response_Rate ≠ 0 || r.Progression_Free_Survival ≠ 0 ||
   r.Overall_Survival ≠ 0 || r.Pathologic_Complete_Response_pCR ≠ 0)

/-- Row filter of `priority_her2_pcr_gap.csv` (lines 22–26): computed
over `completed`. -/
def shortlist2Mem (r : AnalyticsRow) : Bool :=
  statusCompletedOrTerminated r && r.HER2_flag = 1 &&
  r.Pathologic_Complete_Response_pCR = 1 && r.reporting_gap_flag = 1

/-- Row filter of `priority_brcam_efficacy_gap.csv` (lines 28–32):
computed over `completed`. -/
def shortlist3Mem (r : AnalyticsRow) : Bool :=
  statusCompletedOrTerminated r && r.BRCAm_flag = 1 &&
  (r.Progression_Free_Survival ≠ 0 || r.Overall_Survival ≠ 0 ||
   r.Objective_Response_Rate ≠ 0) &&
  r.reporting_gap_flag = 1

/-- Row filter of `priority_nm_gap.csv` (lines 34–36): computed over
`completed`. -/
def shortlist4Mem (r : AnalyticsRow) : Bool :=
  statusCompletedOrTerminated r && r.NM_new_medicine = 1 &&
  r.reporting_gap_flag = 1

/-! ## `taug_extraction/rollup_dictionary.py`

The roll-up claims concern endpoint names and alias lists, so a candidate
carries its `endpoint_name` and `synonyms`; the remaining free-text fields
of a candidate do not influence grouping, label choice or the synonym
union and are omitted.  The default rules-only path (`--use-llm` absent)
is modelled; the LLM tie-break is an optional oracle. -/

namespace Rollup

/-- `CANONICAL_NAMES` (rollup_dictionary.py lines 44–58). -/
def CANONICAL_NAMES : List (String × String) :=
  [ ("overall survival", "Overall Survival"),
    ("progression-free survival", "Progression-Free Survival"),
    ("disease-free survival", "Disease-Free Survival"),
    ("event-free survival", "Event-Free Survival"),
    ("objective response rate", "Objective Response Rate"),
    ("overall response rate", "Objective Response Rate"),
    ("best overall response", "Best Overall Response"),
    ("duration of response", "Duration of Response"),
    ("time to progression", "Time to Progression"),
    ("pathologic complete response", "Pathologic Complete Response"),
    ("pcr", "Pathologic Complete Response"),
    ("clinical benefit rate", "Clinical Benefit Rate") ]

/-- `ALIAS_SEEDS` (rollup_dictionary.py lines 60–71). -/
def ALIAS_SEEDS : List (String × List String) :=
  [ ("Overall Survival", ["OS", "overall survival"]),
    ("Progression-Free Survival", ["PFS", "progression-free survival"]),
    ("Disease-Free Survival", ["DFS", "disease-free survival"]),
    ("Event-Free Survival", ["EFS", "event-free survival"]),
    ("Objective Response Rate",
      ["ORR", "objective response rate", "overall response rate"]),
    ("Best Overall Response", ["BOR", "best overall response"]),
    ("Duration of Response", ["DOR", "duration of response"]),
    ("Time to Progression", ["TTP", "time to progression"]),
    ("Pathologic Complete Response",
      ["pCR", "pathological complete response", "pathologic complete response"]),
    ("Clinical Benefit Rate", ["CBR", "clinical benefit rate"]) ]

/-- Characters kept by the grouping normaliser: `[a-z0-9+ ]` after
lowercasing. -/
def isNormKeep (c : Char) : Bool :=
  ('a' ≤ c && c ≤ 'z') || ('0' ≤ c && c ≤ '9') || c = '+' || c = ' '

/-- `_norm` (rollup_dictionary.py lines 79–87): `normalize_ws`, lowercase,
replace runs outside `[a-z0-9+ ]` with a space, collapse whitespace,
strip.  Character-wise: whitespace becomes a space, other characters are
lowercased and kept only if in the class, then space runs collapse and the
ends are trimmed. -/
def norm (s : String) : String :=
  ⟨trimBy (· = ' ')
    (squashRuns (· = ' ') ' '
      (s.data.map (fun c =>
        if isPyWs c then ' '
        else
          let lc := asciiLowerChar c
          if isNormKeep lc then lc else ' ')))⟩

/-- `_canonicalise_name` (rollup_dictionary.py lines 89–94):
`CANONICAL_NAMES.get(_norm(name), name.strip()) or name`. -/
def canonicalise_name (name : String) : String :=
  match CANONICAL_NAMES.find? (fun kv => kv.1 = norm name) with
  | some kv => kv.2
  | none => let t := stripWs name; if t = "" then name else t

/-- One endpoint candidate of the flattened per-page table
(`_flatten_pages` keeps only candidates with a non-empty name). -/
structure Candidate where
  endpoint_name : String
  synonyms : List String
deriving DecidableEq

/-- `_union_lists` (rollup_dictionary.py lines 106–115): keep-first union
keyed by `_norm`, dropping values whose key is empty, storing the
stripped value. -/
def union_lists_aux (seen : List String) : List String → List String
  | [] => []
  | v :: rest =>
    let vn := norm v
    if vn = "" || seen.contains vn then union_lists_aux seen rest
    else stripWs v :: union_lists_aux (seen ++ [vn]) rest

def union_lists (ls : List (List String)) : List String :=
  union_lists_aux [] ls.flatten

/-- Bucket construction of `_group_candidates` (lines 240–245): an
insertion-ordered `defaultdict(list)` keyed by `_norm(_canonicalise_name
(endpoint_name))`. -/
def bucketAdd (acc : List (String × List Candidate)) (key : String)
    (c : Candidate) : List (String × List Candidate) :=
  if acc.any (fun kv => kv.1 = key) then
    acc.map (fun kv => if kv.1 = key then (kv.1, kv.2 ++ [c]) else kv)
  else acc ++ [(key, [c])]

def buildBuckets (cands : List Candidate) : List (String × List Candidate) :=
  cands.foldl (fun acc c =>
    bucketAdd acc (norm (canonicalise_name c.endpoint_name)) c) []

/-- The optional LLM tie-break: given the variant labels and snippets it
returns a chosen name and alias list; every failure keeps the defaults
(rollup_dictionary.py lines 260–267).  `none` models `--use-llm` off. -/
def LlmChoose : Type := List String → String × List String

/-- Label choice and alias/synonym merging for one bucket
(`_group_candidates` lines 250–307, restricted to the name fields). -/
def mergeBucket (llm : Option LlmChoose) (items : List Candidate) :
    String × List String :=
  let labels := dedupF ((items.filter (fun it => it.endpoint_name ≠ "")).map
    (fun it => canonicalise_name it.endpoint_name))
  let chosen0 := labels.headD ""
  let aliases0 := (labels.drop 1).filter
    (fun l => l ≠ "" && asciiLower l ≠ asciiLower chosen0)
  let (chosen, aliases) :=
    match llm with
    | some f =>
      if 1 < labels.length then
        let (cLlm, aLlm) := f labels
        (if cLlm ≠ "" then cLlm else chosen0,
         if aLlm.isEmpty then aliases0 else dedupF (aliases0 ++ aLlm))
      else (chosen0, aliases0)
    | none => (chosen0, aliases0)
  let aliases := dedupF (aliases ++
    ((ALIAS_SEEDS.find? (fun kv => kv.1 = chosen)).map Prod.snd).getD [])
  let syns := union_lists [(items.map (·.synonyms)).flatten, aliases]
  (chosen, syns)

/-- `merged[chosen] = {...}`: dict assignment keyed by the chosen name. -/
def setEntry (acc : List (String × List String)) (k : String)
    (v : List String) : List (String × List String) :=
  if acc.any (fun kv => kv.1 = k) then
    acc.map (fun kv => if kv.1 = k then (k, v) else kv)
  else acc ++ [(k, v)]

/-- The canonical dictionary produced by `_group_candidates`, reduced to
(endpoint name, synonym list) pairs in insertion order. -/
def group_candidates (llm : Option LlmChoose) (cands : List Candidate) :
    List (String × List String) :=
  (buildBuckets cands).foldl (fun acc kv =>
    let (chosen, syns) := mergeBucket llm kv.2
    setEntry acc chosen syns) []

end Rollup

/-! ## `retrieval/clinicaltrials_api.py` — accumulation and deduplication

A study arriving from one page is modelled after extraction:
`_extract_trial_fields` yields `none` when the study has no `nct_id`
(silently dropped) and otherwise the identifier plus the remaining
fields, kept abstract as a type parameter `α`; `_extract_sites` yields
the site list.  The two insertion-ordered dicts `trials` / `trial_sites`
share their key set (`nct_order`) at every step, so the state is one
insertion-ordered association list from `nct_id` to (fields, accumulated
sites). -/

structure SiteRec where
  facility : Option String
  city : Option String
  state : Option String
  postal_code : Option String
  country : Option String
  site_status : Option String
deriving DecidableEq

/-- The deduplication key of a site (clinicaltrials_api.py lines 340–341):
the full attribute tuple. -/
def siteKey (s : SiteRec) :
    Option String × Option String × Option String × Option String ×
    Option String × Option String :=
  (s.facility, s.city, s.state, s.postal_code, s.country, s.site_status)

set_option synthInstance.maxSize 1000 in
instance siteKeyDecEq : DecidableEq (Option String × Option String ×
    Option String × Option String × Option String × Option String) :=
  inferInstance

structure StudyRec (α : Type) where
  trial : Option (String × α)
  sites : List SiteRec
deriving DecidableEq

/-- One accumulator entry: identifier, first-seen fields, sites collected
so far. -/
abbrev AccList (α : Type) : Type := List (String × α × List SiteRec)

def hasId (st : AccList α) (id : String) : Bool :=
  st.any (fun e => e.1 = id)

/-- `trial_sites[nct_id].extend(sites)`. -/
def extendSitesAt (st : AccList α) (id : String) (sites : List SiteRec) :
    AccList α :=
  st.map (fun e => if e.1 = id then (e.1, e.2.1, e.2.2 ++ sites) else e)

/-- Processing of one study by the page loop (clinicaltrials_api.py lines
307–322), without the `max_records` break: a study without identifier is
dropped; a fresh identifier appends a record with the study's fields and
an empty site list; the study's sites are then appended to its record. -/
def ingestStudy (st : AccList α) (s : StudyRec α) : AccList α :=
  match s.trial with
  | none => st
  | some (id, f) =>
    if hasId st id then extendSitesAt st id s.sites
    else extendSitesAt (st ++ [(id, f, [])]) id s.sites

/-- The inner study loop with the `max_records` break: when a fresh
insertion reaches the cap, the loop breaks before extending that study's
sites. -/
def ingestPage (maxRecords : Nat) : AccList α → List (StudyRec α) → AccList α
  | st, [] => st
  | st, s :: rest =>
    match s.trial with
    | none => ingestPage maxRecords st rest
    | some (id, f) =>
      if hasId st id then
        ingestPage maxRecords (extendSitesAt st id s.sites) rest
      else
        let st1 := st ++ [(id, f, [])]
        if maxRecords ≤ st1.length then st1
        else ingestPage maxRecords (extendSitesAt st1 id s.sites) rest

/-- The pagination loop (clinicaltrials_api.py lines 296–329): pages are
processed in order; a page without studies stops the fetch, and so does
reaching `max_records` after a page. -/
def fetchLoop (maxRecords : Nat) : AccList α → List (List (StudyRec α)) → AccList α
  | st, [] => st
  | st, page :: rest =>
    if page.isEmpty then st
    else
      let st1 := ingestPage maxRecords st page
      if maxRecords ≤ st1.length then st1
      else fetchLoop maxRecords st1 rest

/-- The per-trial site deduplication loop (lines 337–345): keep the first
site for each full attribute tuple. -/
def dedupSitesAux (seen : List (Option String × Option String × Option String ×
    Option String × Option String × Option String)) :
    List SiteRec → List SiteRec
  | [] => []
  | s :: rest =>
    if siteKey s ∈ seen then dedupSitesAux seen rest
    else s :: dedupSitesAux (seen ++ [siteKey s]) rest

def dedupSites (sites : List SiteRec) : List SiteRec :=
  dedupSitesAux [] sites

/-- One row of the raw CSV (lines 331–370), with the `site_countries` and
`sites_compact` renderings of the deduplicated site list. -/
structure TrialCsvRow (α : Type) where
  nct_id : String
  fields : α
  site_count : Nat
  site_countries : Option String
  sites_compact : Option String

/-- `sorted({s.get("country") for s in sites if s.get("country")})`:
non-empty countries, deduplicated, sorted lexicographically. -/
def sortedCountries (sites : List SiteRec) : List String :=
  (dedupF (sites.filterMap (·.country))).mergeSort (· ≤ ·)

/-- `f"{fac} [{', '.join(parts)}]" if parts else fac` for one site. -/
def siteCompactItem (s : SiteRec) : String :=
  let fac := s.facility.getD ""
  let parts := [s.city.getD "", s.country.getD ""].filter (· ≠ "")
  if parts.isEmpty then fac
  else fac ++ " [" ++ String.intercalate ", " parts ++ "]"

/-- Row construction from the accumulated state (lines 332–370). -/
def buildRows (st : AccList α) : List (TrialCsvRow α) :=
  st.map (fun e =>
    let sites := dedupSites e.2.2
    let countries := sortedCountries sites
    { nct_id := e.1
      fields := e.2.1
      site_count := sites.length
      site_countries :=
        if countries.isEmpty then none
        else some (String.intercalate "; " countries)
      sites_compact :=
        if sites.isEmpty then none
        else some (String.intercalate " | " (sites.map siteCompactItem)) })

/-- `fetch_breast_cancer_trials` up to its first CSV write: accumulate
all pages from the empty state, then build one row per recorded
identifier in arrival order. -/
def fetch_trials_raw (pages : List (List (StudyRec α))) (maxRecords : Nat) :
    List (TrialCsvRow α) :=
  buildRows (fetchLoop maxRecords [] pages)

/-- Lookup of the accumulator entry of an identifier (the dict access of
`trials` / `trial_sites`). -/
def accFind (st : AccList α) (id : String) : Option (α × List SiteRec) :=
  (st.find? (fun e => e.1 = id)).map (fun e => e.2)

/-- Specification helper: the identifiers newly recorded while processing
a study list, given the already-seen identifiers — the order of
`nct_order`. -/
def newIds (seen : List String) : List (StudyRec α) → List String
  | [] => []
  | s :: rest =>
    match s.trial with
    | none => newIds seen rest
    | some (id, _) =>
      if id ∈ seen then newIds seen rest
      else id :: newIds (seen ++ [id]) rest

/-- Specification helper: the fields of the first study carrying `id`. -/
def firstFieldsOf (id : String) (studies : List (StudyRec α)) : Option α :=
  (studies.filterMap (fun s =>
    match s.trial with
    | some (id', f) => if id' = id then some f else none
    | none => none)).head?

/-- Specification helper: all sites observed for `id`, across every
sighting, in order. -/
def sitesOf (id : String) (studies : List (StudyRec α)) : List SiteRec :=
  (studies.filterMap (fun s =>
    match s.trial with
    | some (id', _) => if id' = id then some s.sites else none
    | none => none)).flatten

/-! ## `utils/helpers.py` — the retry decorator

The wrapped operation is an oracle `f : Nat → AttemptOut α ε` giving the
outcome of the k-th invocation (1-based): a value, an exception of the
caller-specified set (caught), or any other exception (propagates
immediately).  Delays are exact rationals.  The trace records the result
(`Except.ok none` models the `None` fall-through when `attempts < 1`),
how many times the operation was invoked, and the sleeps performed in
order. -/

inductive AttemptOut (α ε : Type) where
  | ok (a : α)
  | caught (e : ε)
  | uncaught (e : ε)

structure RetryTrace (α ε : Type) where
  result : Except ε (Option α)
  calls : Nat
  sleeps : List ℚ

/-- The retry loop (`helpers.py` lines 56–73).  `i` is the attempt
counter of `for i in range(1, attempts + 1)` and `fuel = attempts - i + 1`
the number of iterations left; `wait` is the current delay.  On a caught
exception with `i >= attempts` the exception is re-raised; otherwise the
loop sleeps `wait` and multiplies it by `backoff`. -/
def retryGo (f : Nat → AttemptOut α ε) (backoff : ℚ) :
    Nat → Nat → ℚ → Nat → List ℚ → RetryTrace α ε
  | _, 0, _, calls, sleeps => ⟨.ok none, calls, sleeps⟩
  | i, fuel + 1, wait, calls, sleeps =>
    match f i with
    | .ok a => ⟨.ok (some a), calls + 1, sleeps⟩
    | .uncaught e => ⟨.error e, calls + 1, sleeps⟩
    | .caught e =>
      if fuel = 0 then ⟨.error e, calls + 1, sleeps⟩
      else retryGo f backoff (i + 1) fuel (wait * backoff) (calls + 1)
        (sleeps ++ [wait])

/-- `retry(attempts, delay_sec, backoff, exceptions)` applied to `f`. -/
def retryRun (f : Nat → AttemptOut α ε) (attempts : Nat)
    (delay_sec backoff : ℚ) : RetryTrace α ε :=
  retryGo f backoff 1 attempts delay_sec 0 []

/-- The geometric sleep schedule `delay * backoff^(k-1)` for the k-th
sleep, 1-based (0-based exponent below). -/
def geomSleeps (delay backoff : ℚ) (n : Nat) : List ℚ :=
  (List.range n).map (fun k => delay * backoff ^ k)

/-! ## Concrete instances used by counterexamples and witnesses -/

/-- A COMPLETED trial one year past completion, HER2-positive, with pCR
planned and a reporting gap: a member of the HER2/pCR shortlist. -/
def c2Row : AnalyticsRow :=
  { overall_status := some "COMPLETED"
    years_since_completion := some 1
    reporting_gap_flag := 1
    HER2_flag := 1
    BRCAm_flag := 0
    NM_new_medicine := 0
    Objective_Response_Rate := 0
    Progression_Free_Survival := 0
    Overall_Survival := 0
    Pathologic_Complete_Response_pCR := 1 }

/-- A COMPLETED trial five years past completion with a reporting gap and
a key efficacy endpoint planned: a member of the key-endpoints shortlist. -/
def c2RowOld : AnalyticsRow :=
  { overall_status := some "TERMINATED"
    years_since_completion := some 5
    reporting_gap_flag := 1
    HER2_flag := 0
    BRCAm_flag := 0
    NM_new_medicine := 0
    Objective_Response_Rate := 1
    Progression_Free_Survival := 0
    Overall_Survival := 0
    Pathologic_Complete_Response_pCR := 0 }

/-- The three endpoint-candidate observations of the synonym-merging
claim. -/
def osCand : Rollup.Candidate := ⟨"OS", []⟩

def ovsCand : Rollup.Candidate := ⟨"Overall Survival", []⟩

def ovslCand : Rollup.Candidate := ⟨"overall survival", []⟩

/-- A trial row with PFS and OS flagged planned whose posted results
mention only Progression-Free Survival. -/
def c1Row : TrialRow :=
  { planned_primary_outcomes := .absent
    planned_secondary_outcomes := .absent
    start_date := none
    primary_completion_date := none
    completion_date := none
    results_outcome_measures := some
      [{ title := some "Progression-Free Survival"
         paramType := none, dispersionType := none, classes := [] }]
    results_participant_flow := none
    results_baseline := none
    results_adverse_events := none
    flags := [("Progression_Free_Survival", 1), ("Overall_Survival", 1)] }

/-- A raw trial row with free-text planned outcomes. -/
def c10Row : TrialRow :=
  { planned_primary_outcomes := .jsonList ["Overall survival at 5 years"]
    planned_secondary_outcomes := .plain "Objective response rate; duration of response"
    start_date := none
    primary_completion_date := none
    completion_date := none
    results_outcome_measures := none
    results_participant_flow := none
    results_baseline := none
    results_adverse_events := none
    flags := [] }

/-- Attempt oracle for the retry witness: the first attempt raises an
exception of the configured set, the second succeeds. -/
def c9f : Nat → AttemptOut Nat Nat :=
  fun k => if k = 1 then .caught 5 else .ok 42

/-- A site observation and two sightings of one trial on two pages, the
second sighting repeating the identical site tuple. -/
def c8Site : SiteRec :=
  ⟨some "General Hospital", some "Boston", some "MA", some "02115",
   some "United States", some "RECRUITING"⟩

def c8Study1 : StudyRec Nat := ⟨some ("NCT00000001", 1), [c8Site, c8Site]⟩

def c8Study2 : StudyRec Nat := ⟨some ("NCT00000001", 2), [c8Site]⟩

def c8Pages : List (List (StudyRec Nat)) := [[c8Study1], [c8Study2]]

/-- Specification form of the Layer A flag dict: one entry per canonical
column, value 1 exactly on the columns of the matched endpoints. -/
def flagsFor (matched : List String) : List (String × Nat) :=
  CANONICAL_COLS.map
    (fun col => (col, if col ∈ matched.map canonical_to_col then 1 else 0))

/-! # Theorems -/

/-- C7: running the enrichment pipeline with the raw input CSV absent
(`none`, treated as an empty dataset) terminates and yields empty output
row sets in all three formats (CSV, Parquet, JSON-lines) and no
checkpoints; totality of the model is the absence of an exception. -/
theorem c7_empty_input_pipeline (resources : EndpointResources)
    (client : Option LLMClient) (classifyRow : TrialRow → ClsRes) :
    runPipeline none resources client classifyRow =
      { out_csv := [], out_parquet := [], out_jsonl := [], checkpoints := [] } :=
  rfl

/-- C3 counterexample: under the code's eligibility rule with today =
2025-01-01, a trial whose primary completion date is 2024-01-02 IS
eligible (2024 is a leap year, so exactly 365 days have elapsed and
`pcd <= today - 365 days` holds), contradicting the claim that it is not
eligible. -/
theorem c3_counterexample :
    momentum_eligible (some ⟨2024, 1, 2⟩) ⟨2025, 1, 1⟩ = true := by
  decide

/-- C3 amended: with today fixed at 2025-01-01, a primary completion
date of 2023-12-31 is eligible (367 days), 2024-01-02 is also eligible
(exactly 365 days — 2024 is a leap year), 2024-01-03 is not eligible
(364 days), and a missing primary completion date is never eligible. -/
theorem c3_eligibility_boundary :
    momentum_eligible (some ⟨2023, 12, 31⟩) ⟨2025, 1, 1⟩ = true ∧
    momentum_eligible (some ⟨2024, 1, 2⟩) ⟨2025, 1, 1⟩ = true ∧
    momentum_eligible (some ⟨2024, 1, 3⟩) ⟨2025, 1, 1⟩ = false ∧
    ∀ today : CivilDate, momentum_eligible none today = false := by
  refine ⟨by decide, by decide, by decide, fun _ => rfl⟩

/-- C2 counterexample: a COMPLETED trial only one year past completion
belongs to the HER2/pCR shortlist, so not every shortlisted trial has at
least 3 years since completion. -/
theorem c2_counterexample :
    shortlist2Mem c2Row = true ∧ yscAtLeast3 c2Row = false := by
  constructor <;> rfl

/-- C2 amended: every trial of any of the four shortlists has overall
status COMPLETED or TERMINATED, but only the key-endpoints shortlist
(shortlist 1) additionally restricts to at least 3 years since
completion; shortlists 2–4 are computed over the completed/terminated
population without the years restriction. -/
theorem c2_shortlist_populations (r : AnalyticsRow) :
    (shortlist1Mem r = true →
      statusCompletedOrTerminated r = true ∧ yscAtLeast3 r = true) ∧
    (shortlist2Mem r = true → statusCompletedOrTerminated r = true) ∧
    (shortlist3Mem r = true → statusCompletedOrTerminated r = true) ∧
    (shortlist4Mem r = true → statusCompletedOrTerminated r = true) := by
  refine ⟨?_, ?_, ?_, ?_⟩ <;> intro h <;>
    simp only [shortlist1Mem, shortlist2Mem, shortlist3Mem, shortlist4Mem,
      Bool.and_eq_true] at h
  · exact ⟨h.1.1.1, h.1.1.2⟩
  · exact h.1.1.1
  · exact h.1.1.1
  · exact h.1.1

/-- C2 witness: the amended theorem applied to concrete shortlist
members. -/
theorem c2_shortlist_populations_witness :
    (statusCompletedOrTerminated c2RowOld = true ∧ yscAtLeast3 c2RowOld = true) ∧
    statusCompletedOrTerminated c2Row = true :=
  ⟨(c2_shortlist_populations c2RowOld).1 (by rfl),
   (c2_shortlist_populations c2Row).2.1 (by rfl)⟩

/-- C6: the per-phrase classification step never invokes the LLM fallback
when the rule matcher succeeds — the tracking flag is set only when the
rule returns no match — and a rule match is returned as the result. -/
theorem c6_rule_before_llm (txt : String) (resources : EndpointResources)
    (client : Option LLMClient) :
    ((classify_phrase_tracked txt resources client).2 = true →
      rule_match_canonical txt resources.synonyms resources.canonical = none) ∧
    (∀ m, rule_match_canonical txt resources.synonyms resources.canonical = some m →
      (classify_phrase_tracked txt resources client).1 = some m) := by
  constructor
  · intro hcall
    cases h : rule_match_canonical txt resources.synonyms resources.canonical with
    | none => rfl
    | some c =>
      exfalso
      simp only [classify_phrase_tracked, h] at hcall
      exact Bool.false_ne_true hcall
  · intro m hm
    simp only [classify_phrase_tracked, hm]

/-- C6 witness: on a phrase where the rule succeeds, the result is the
rule's match (and, by the theorem, no LLM call happened). -/
theorem c6_rule_before_llm_witness :
    (classify_phrase_tracked "os rate"
      ⟨[("os", "Overall Survival")], ["Overall Survival"]⟩ none).1 =
      some "Overall Survival" :=
  (c6_rule_before_llm "os rate"
      ⟨[("os", "Overall Survival")], ["Overall Survival"]⟩ none).2
    "Overall Survival" (by decide)

/-- C5: for every trial row, `consort_results_score` equals the sum of
the seven CONSORT flag columns computed on that row, and lies in
0..7 (each flag being 0 or 1). -/
theorem c5_consort_score (row : TrialRow) (resources : EndpointResources)
    (client : Option LLMClient) :
    (annotate_reporting_for_row row resources client).consort_results_score =
      (annotate_reporting_for_row row resources client).consort_participant_flow +
      (annotate_reporting_for_row row resources client).consort_recruitment +
      (annotate_reporting_for_row row resources client).consort_baseline +
      (annotate_reporting_for_row row resources client).consort_numbers_analyzed +
      (annotate_reporting_for_row row resources client).consort_outcomes_estimation +
      (annotate_reporting_for_row row resources client).consort_ancillary_analyses +
      (annotate_reporting_for_row row resources client).consort_harms ∧
    (annotate_reporting_for_row row resources client).consort_results_score ≤ 7 := by
  refine ⟨rfl, ?_⟩
  have hoptList : ∀ x : Option (List Unit),
      (match x with
       | some l => if l.isEmpty then 0 else 1
       | none => 0) ≤ 1 := by
    intro x
    cases x with
    | none => exact Nat.zero_le 1
    | some l => dsimp only; split <;> omega
  have hite : ∀ (c : Prop) [Decidable c], (if c then 1 else 0) ≤ 1 := by
    intro c inst
    split <;> omega
  dsimp only [annotate_reporting_for_row]
  have h7 : (7 : ℕ) = 1 + 1 + 1 + 1 + 1 + 1 + 1 := by norm_num
  rw [h7]
  exact Nat.add_le_add (Nat.add_le_add (Nat.add_le_add (Nat.add_le_add
    (Nat.add_le_add (Nat.add_le_add (hite _) (hite _)) (hoptList _))
    (hite _)) (hite _)) (hite _)) (hoptList _)

/-- C1: the reporting layer sets `reporting_gap_flag` to 1 exactly when
some canonical endpoint whose flag column is 1 on the row is absent from
the canonical set mapped from the posted `results_outcome_measures`
titles, and to 0 exactly when every such planned endpoint is in that
reported set (vacuously so when none is planned). -/
theorem c1_reporting_gap_iff (row : TrialRow) (resources : EndpointResources)
    (client : Option LLMClient) :
    ((annotate_reporting_for_row row resources client).reporting_gap_flag = 1 ↔
      ∃ c ∈ resources.canonical, rowFlag row (canonical_to_col c) = 1 ∧
        c ∉ map_reported_to_canonical
          (collect_reported_endpoint_titles row.results_outcome_measures)
          resources client) ∧
    ((annotate_reporting_for_row row resources client).reporting_gap_flag = 0 ↔
      ∀ c ∈ resources.canonical, rowFlag row (canonical_to_col c) = 1 →
        c ∈ map_reported_to_canonical
          (collect_reported_endpoint_titles row.results_outcome_measures)
          resources client) := by
  have hcond :
      ((resources.canonical.filter
          (fun cname => rowFlag row (canonical_to_col cname) = 1)).any
        (fun p => !(map_reported_to_canonical
          (collect_reported_endpoint_titles row.results_outcome_measures)
          resources client).contains p) = true) ↔
      ∃ c ∈ resources.canonical, rowFlag row (canonical_to_col c) = 1 ∧
        c ∉ map_reported_to_canonical
          (collect_reported_endpoint_titles row.results_outcome_measures)
          resources client := by
    simp only [List.any_eq_true, List.mem_filter, decide_eq_true_eq,
      Bool.not_eq_true']
    constructor
    · rintro ⟨c, ⟨hc, hf⟩, hnr⟩
      refine ⟨c, hc, hf, fun hmem => ?_⟩
      have hnr' : List.elem c (map_reported_to_canonical
          (collect_reported_endpoint_titles row.results_outcome_measures)
          resources client) = false := hnr
      rw [List.elem_iff.mpr hmem] at hnr'
      simp at hnr'
    · rintro ⟨c, hc, hf, hnr⟩
      refine ⟨c, ⟨hc, hf⟩, ?_⟩
      show List.elem c (map_reported_to_canonical
        (collect_reported_endpoint_titles row.results_outcome_measures)
        resources client) = false
      cases hcc : List.elem c (map_reported_to_canonical
          (collect_reported_endpoint_titles row.results_outcome_measures)
          resources client) with
      | false => rfl
      | true => exact absurd (List.elem_iff.mp hcc) hnr
  dsimp only [annotate_reporting_for_row]
  constructor
  · constructor
    · intro h
      rw [← hcond]
      by_contra hfalse
      rw [if_neg (by simpa using hfalse)] at h
      omega
    · intro h
      rw [← hcond] at h
      rw [if_pos (by simpa using h)]
  · constructor
    · intro h c hc hf
      by_contra hnr
      rw [if_pos (by exact hcond.mpr ⟨c, hc, hf, hnr⟩)] at h
      omega
    · intro h
      rw [if_neg]
      intro hany
      obtain ⟨c, hc, hf, hnr⟩ := hcond.mp (by simpa using hany)
      exact hnr (h c hc hf)

/-- C1 witness: on a trial with PFS and OS flagged planned whose posted
results map only to Progression-Free Survival, the flag is 1. -/
theorem c1_reporting_gap_witness :
    (annotate_reporting_for_row c1Row ⟨[], CANONICAL_ENDPOINTS⟩ none).reporting_gap_flag = 1 :=
  (c1_reporting_gap_iff c1Row ⟨[], CANONICAL_ENDPOINTS⟩ none).1.mpr
    ⟨"Overall Survival", by decide, by decide, by decide⟩

/-- C4 counterexample: rolling up the candidates "OS", "Overall
Survival", "overall survival" does NOT produce exactly one dictionary
entry — the normalized form "os" has no entry in the canonicalisation
lookup, so "OS" is bucketed on its own and two entries result. -/
theorem c4_counterexample :
    (Rollup.group_candidates none [osCand, ovsCand, ovslCand]).length ≠ 1 := by
  decide

/-- C4 amended: for every ordering of the three candidates the roll-up
deterministically produces exactly two entries: "Overall Survival",
whose synonym list contains the other two forms "OS" and "overall
survival" (via the alias seeds), and a separate entry "OS" with no
synonyms. -/
theorem c4_rollup_order_independent (l : List Rollup.Candidate)
    (hp : l.Perm [osCand, ovsCand, ovslCand]) :
    (Rollup.group_candidates none l).length = 2 ∧
    (Rollup.group_candidates none l).find? (fun e => e.1 = "Overall Survival") =
      some ("Overall Survival", ["OS", "overall survival"]) ∧
    (Rollup.group_candidates none l).find? (fun e => e.1 = "OS") =
      some ("OS", []) := by
  match l, hp.length_eq with
  | [x, y, z], _ =>
    have hx : x ∈ [osCand, ovsCand, ovslCand] := hp.subset (by simp)
    have hy : y ∈ [osCand, ovsCand, ovslCand] := hp.subset (by simp)
    have hz : z ∈ [osCand, ovsCand, ovslCand] := hp.subset (by simp)
    simp only [List.mem_cons, List.mem_singleton, List.not_mem_nil,
      or_false] at hx hy hz
    rcases hx with rfl | rfl | rfl <;> rcases hy with rfl | rfl | rfl <;>
      rcases hz with rfl | rfl | rfl <;>
      first
      | decide
      | exact absurd (hp.count_eq osCand) (by decide)

/-- Helper for the sleep schedule: peeling one step off a geometric
range. -/
theorem geom_range_cons (b : ℚ) (m : Nat) (wait : ℚ) :
    (List.range (m + 1)).map (fun k => wait * b ^ k) =
      wait :: (List.range m).map (fun k => (wait * b) * b ^ k) := by
  rw [List.range_succ_eq_map, List.map_cons, List.map_map]
  have hfun : ((fun k => wait * b ^ k) ∘ Nat.succ) =
      (fun k => (wait * b) * b ^ k) := by
    funext k
    simp only [Function.comp_apply, pow_succ]
    ring
  rw [hfun, pow_zero, mul_one]

/-- The retry loop performs at most `fuel` further invocations. -/
theorem retryGo_calls_le (f : Nat → AttemptOut α ε) (b : ℚ) :
    ∀ fuel i wait calls sleeps,
      (retryGo f b i fuel wait calls sleeps).calls ≤ calls + fuel := by
  intro fuel
  induction fuel with
  | zero => intro i wait calls sleeps; simp [retryGo]
  | succ n ih =>
    intro i wait calls sleeps
    simp only [retryGo]
    cases f i with
    | ok a => dsimp only; omega
    | uncaught e => dsimp only; omega
    | caught e =>
      dsimp only
      by_cases hn : n = 0
      · rw [if_pos hn]; dsimp only; omega
      · rw [if_neg hn]
        calc (retryGo f b (i+1) n (wait*b) (calls+1) (sleeps ++ [wait])).calls
            ≤ (calls + 1) + n := ih (i+1) (wait*b) (calls+1) (sleeps ++ [wait])
          _ = calls + (n + 1) := by omega

/-- The sleeps recorded by the retry loop extend the incoming list by a
geometric schedule starting at the current wait. -/
theorem retryGo_sleeps_geom (f : Nat → AttemptOut α ε) (b : ℚ) :
    ∀ fuel i wait calls sleeps, ∃ m,
      (retryGo f b i fuel wait calls sleeps).sleeps =
        sleeps ++ (List.range m).map (fun k => wait * b ^ k) := by
  intro fuel
  induction fuel with
  | zero =>
    intro i wait calls sleeps
    exact ⟨0, by simp [retryGo]⟩
  | succ n ih =>
    intro i wait calls sleeps
    simp only [retryGo]
    cases f i with
    | ok a => exact ⟨0, by simp⟩
    | uncaught e => exact ⟨0, by simp⟩
    | caught e =>
      dsimp only
      by_cases hn : n = 0
      · rw [if_pos hn]; exact ⟨0, by simp⟩
      · rw [if_neg hn]
        obtain ⟨m, hm⟩ := ih (i+1) (wait*b) (calls+1) (sleeps ++ [wait])
        refine ⟨m + 1, ?_⟩
        rw [hm, geom_range_cons]
        simp

/-- A first success at attempt `j` inside the window returns that value
after exactly `j - i + 1` further invocations. -/
theorem retryGo_success (f : Nat → AttemptOut α ε) (b : ℚ) :
    ∀ fuel i wait calls sleeps j a, i ≤ j → j < i + fuel → f j = .ok a →
      (∀ k, i ≤ k → k < j → ∃ e, f k = .caught e) →
      (retryGo f b i fuel wait calls sleeps).result = .ok (some a) ∧
      (retryGo f b i fuel wait calls sleeps).calls = calls + (j - i) + 1 := by
  intro fuel
  induction fuel with
  | zero =>
    intro i wait calls sleeps j a h1 h2 _ _
    omega
  | succ n ih =>
    intro i wait calls sleeps j a h1 h2 hja hcaught
    by_cases hij : i = j
    · subst hij
      simp only [retryGo, hja]
      exact ⟨trivial, by omega⟩
    · have hlt : i < j := lt_of_le_of_ne h1 hij
      obtain ⟨e, he⟩ := hcaught i le_rfl hlt
      simp only [retryGo, he]
      have hn : n ≠ 0 := by omega
      rw [if_neg hn]
      have hrec := ih (i+1) (wait*b) (calls+1) (sleeps ++ [wait]) j a
        (by omega) (by omega) hja (fun k hk1 hk2 => hcaught k (by omega) hk2)
      refine ⟨hrec.1, ?_⟩
      rw [hrec.2]
      omega

/-- When every attempt of the window fails with a caught exception, the
loop re-raises the exception of the last attempt after exactly `fuel`
invocations, having slept the geometric schedule of length `fuel - 1`. -/
theorem retryGo_allfail (f : Nat → AttemptOut α ε) (b : ℚ) :
    ∀ fuel i wait calls sleeps e, 1 ≤ fuel →
      (∀ k, i ≤ k → k < i + fuel - 1 → ∃ e2, f k = .caught e2) →
      f (i + fuel - 1) = .caught e →
      (retryGo f b i fuel wait calls sleeps).result = .error e ∧
      (retryGo f b i fuel wait calls sleeps).calls = calls + fuel ∧
      (retryGo f b i fuel wait calls sleeps).sleeps =
        sleeps ++ (List.range (fuel - 1)).map (fun k => wait * b ^ k) := by
  intro fuel
  induction fuel with
  | zero =>
    intro i wait calls sleeps e h1
    omega
  | succ n ih =>
    intro i wait calls sleeps e _ hcaught hlast
    by_cases hn : n = 0
    · subst hn
      have hfi : f i = .caught e := by simpa using hlast
      simp only [retryGo, hfi]
      rw [if_pos (by trivial)]
      refine ⟨rfl, ?_, ?_⟩
      · show calls + 1 = calls + (0 + 1)
        omega
      · show sleeps = sleeps ++ (List.range (0 + 1 - 1)).map (fun k => wait * b ^ k)
        rw [show (0 + 1 - 1 : Nat) = 0 from rfl, List.range_zero, List.map_nil,
          List.append_nil]
    · obtain ⟨e0, he0⟩ := hcaught i le_rfl (by omega)
      simp only [retryGo, he0]
      rw [if_neg hn]
      have hrec := ih (i+1) (wait*b) (calls+1) (sleeps ++ [wait]) e
        (by omega)
        (fun k hk1 hk2 => hcaught k (by omega) (by omega))
        (by rw [show i + 1 + n - 1 = i + (n + 1) - 1 by omega]; exact hlast)
      refine ⟨hrec.1, by rw [hrec.2.1]; omega, ?_⟩
      rw [hrec.2.2, show n + 1 - 1 = (n - 1) + 1 by omega, geom_range_cons]
      simp

/-- C9: the retry decorator with attempt count `n`, base delay `d` and
backoff `b` invokes the wrapped operation at most `n` times; the k-th
sleep it performs is `d * b^(k-1)`; a first success at any attempt `j`
(all earlier attempts failing with exceptions of the configured set)
returns that result immediately after `j` invocations; and when all `n`
attempts fail with exceptions of the configured set, the last exception
is re-raised after exactly `n` invocations and `n - 1` sleeps. -/
theorem c9_retry_spec (f : Nat → AttemptOut α ε) (n : Nat) (d b : ℚ) :
    (retryRun f n d b).calls ≤ n ∧
    (retryRun f n d b).sleeps =
      geomSleeps d b (retryRun f n d b).sleeps.length ∧
    (∀ j a, 1 ≤ j → j ≤ n → f j = .ok a →
      (∀ k, 1 ≤ k → k < j → ∃ e, f k = .caught e) →
      (retryRun f n d b).result = .ok (some a) ∧
      (retryRun f n d b).calls = j) ∧
    (∀ e, 1 ≤ n → (∀ k, 1 ≤ k → k < n → ∃ e2, f k = .caught e2) →
      f n = .caught e →
      (retryRun f n d b).result = .error e ∧
      (retryRun f n d b).calls = n ∧
      (retryRun f n d b).sleeps = geomSleeps d b (n - 1)) := by
  refine ⟨?_, ?_, ?_, ?_⟩
  · simpa using retryGo_calls_le f b n 1 d 0 []
  · obtain ⟨m, hm⟩ := retryGo_sleeps_geom f b n 1 d 0 []
    unfold retryRun geomSleeps
    rw [hm]
    simp
  · intro j a h1 h2 hja hcaught
    have hout := retryGo_success f b n 1 d 0 [] j a h1 (by omega) hja
      (fun k hk1 hk2 => hcaught k hk1 hk2)
    refine ⟨hout.1, ?_⟩
    show (retryGo f b 1 n d 0 []).calls = j
    rw [hout.2]
    omega
  · intro e h1 hcaught hlast
    have hout := retryGo_allfail f b n 1 d 0 [] e h1
      (fun k hk1 hk2 => hcaught k hk1 (by omega))
      (by rw [show 1 + n - 1 = n by omega]; exact hlast)
    refine ⟨hout.1, ?_, ?_⟩
    · show (retryGo f b 1 n d 0 []).calls = n
      rw [hout.2.1]
      omega
    · show (retryGo f b 1 n d 0 []).sleeps = geomSleeps d b (n - 1)
      rw [hout.2.2]
      simp [geomSleeps]

/-- C9 witness: with the oracle failing once (exception in the set) and
then succeeding, three configured attempts return the success value on
the second invocation. -/
theorem c9_retry_spec_witness :
    (retryRun c9f 3 2 3).result = .ok (some 42) ∧
    (retryRun c9f 3 2 3).calls = 2 :=
  (c9_retry_spec c9f 3 2 3).2.2.1 2 42 (by omega) (by omega) rfl
    (fun k hk1 hk2 => ⟨5, by have hk : k = 1 := by omega
                             subst hk; rfl⟩)

/-- C4 witness: the amended theorem at the identity ordering. -/
theorem c4_rollup_order_independent_witness :
    (Rollup.group_candidates none [osCand, ovsCand, ovslCand]).length = 2 ∧
    (Rollup.group_candidates none
        [osCand, ovsCand, ovslCand]).find? (fun e => e.1 = "Overall Survival") =
      some ("Overall Survival", ["OS", "overall survival"]) ∧
    (Rollup.group_candidates none
        [osCand, ovsCand, ovslCand]).find? (fun e => e.1 = "OS") =
      some ("OS", []) :=
  c4_rollup_order_independent [osCand, ovsCand, ovslCand] (List.Perm.refl _)

/-- The canonical endpoint column names are pairwise distinct. -/
theorem canonical_cols_nodup : CANONICAL_COLS.Nodup := by decide

/-- A rule match always lies in the canonical set. -/
theorem rule_match_mem {t : String} {syn : List (String × String)}
    {canon : List String} {c : String}
    (h : rule_match_canonical t syn canon = some c) : c ∈ canon := by
  simp only [rule_match_canonical] at h
  split at h
  · cases h
  · split at h
    next kv heq =>
      have hp := List.find?_some heq
      cases h
      simp only [Bool.and_eq_true, decide_eq_true_eq] at hp
      exact List.elem_iff.mp hp.2
    next heq => exact List.mem_of_find?_eq_some h

/-- Any result of the per-phrase classification (rule or LLM) lies in the
canonical set; the LLM side is the membership check of the client. -/
theorem classify_phrase_mem {txt : String} {resources : EndpointResources}
    {client : Option LLMClient} {c : String}
    (h : (classify_phrase_tracked txt resources client).1 = some c) :
    c ∈ resources.canonical := by
  rcases hr : rule_match_canonical txt resources.synonyms resources.canonical with _ | m
  · simp only [classify_phrase_tracked, hr] at h
    cases client with
    | none => exact Option.noConfusion h
    | some f =>
      have h2 : (if txt = "" then none
          else f.classify_endpoint txt resources.canonical) = some c := h
      by_cases ht : txt = ""
      · rw [if_pos ht] at h2; exact Option.noConfusion h2
      · rw [if_neg ht] at h2
        exact f.mem _ _ _ h2
  · simp only [classify_phrase_tracked, hr] at h
    cases h
    exact rule_match_mem hr

/-- Setting the flag column of a canonical endpoint on the spec-form dict
appends that endpoint to the matched set. -/
theorem setKey_flagsFor (M : List String) (c : String)
    (hc : c ∈ CANONICAL_ENDPOINTS) :
    setKey (flagsFor M) (canonical_to_col c) 1 = flagsFor (M ++ [c]) := by
  have hmem : canonical_to_col c ∈ CANONICAL_COLS :=
    List.mem_map_of_mem canonical_to_col hc
  have hany : (flagsFor M).any (fun p => p.1 = canonical_to_col c) = true := by
    refine List.any_eq_true.mpr ⟨(canonical_to_col c,
      if canonical_to_col c ∈ M.map canonical_to_col then 1 else 0), ?_, by simp⟩
    exact List.mem_map.mpr ⟨canonical_to_col c, hmem, rfl⟩
  unfold setKey
  rw [if_pos hany]
  unfold flagsFor
  rw [List.map_map]
  apply List.map_congr_left
  intro col hcol
  by_cases h : col = canonical_to_col c
  · have hr : col ∈ (M ++ [c]).map canonical_to_col := by
      rw [List.map_append]
      exact List.mem_append_right _ (by simp [h])
    simp [h, hr]
  · have hiff : (col ∈ (M ++ [c]).map canonical_to_col) ↔
        (col ∈ M.map canonical_to_col) := by
      rw [List.map_append, List.mem_append]
      constructor
      · rintro (hm | hs)
        · exact hm
        · exact absurd (by simpa using hs) h
      · exact Or.inl
    simp only [Function.comp_apply]
    rw [if_neg (by simpa using h)]
    by_cases hmm : col ∈ M.map canonical_to_col
    · rw [if_pos hmm, if_pos (hiff.mpr hmm)]
    · rw [if_neg hmm, if_neg (fun hx => hmm (hiff.mp hx))]

/-- Invariant of the Layer A matching loop: starting from a duplicate-free
matched list of canonical endpoints and its spec-form dict, the loop
keeps the matched list duplicate-free and canonical and the dict in
spec form. -/
theorem epLoop_char (resources : EndpointResources) (client : Option LLMClient)
    (hres : resources.canonical = CANONICAL_ENDPOINTS) :
    ∀ (texts matched : List String),
      matched.Nodup → (∀ c ∈ matched, c ∈ CANONICAL_ENDPOINTS) →
      (epLoop resources client texts matched (flagsFor matched)).1.Nodup ∧
      (∀ c ∈ (epLoop resources client texts matched (flagsFor matched)).1,
        c ∈ CANONICAL_ENDPOINTS) ∧
      (epLoop resources client texts matched (flagsFor matched)).2 =
        flagsFor (epLoop resources client texts matched (flagsFor matched)).1 := by
  intro texts
  induction texts with
  | nil =>
    intro matched hnd hsub
    exact ⟨hnd, hsub, rfl⟩
  | cons txt rest ih =>
    intro matched hnd hsub
    rcases hc : (classify_phrase_tracked txt resources client).1 with _ | c
    · simp only [epLoop, hc]
      exact ih matched hnd hsub
    · have hcmem : c ∈ CANONICAL_ENDPOINTS := hres ▸ classify_phrase_mem hc
      by_cases hin : matched.contains c = true
      · simp only [epLoop, hc]
        rw [if_pos hin]
        exact ih matched hnd hsub
      · simp only [epLoop, hc]
        rw [if_neg hin]
        rw [setKey_flagsFor matched c hcmem]
        refine ih (matched ++ [c]) ?_ ?_
        · refine List.Nodup.append hnd (List.nodup_singleton c) ?_
          intro x hx hxs
          rw [List.mem_singleton] at hxs
          subst hxs
          exact absurd (List.elem_iff.mpr hx) (by simpa using hin)
        · intro x hx
          rcases List.mem_append.mp hx with hm | hs
          · exact hsub x hm
          · rw [List.mem_singleton] at hs
            subst hs
            exact hcmem

/-- The spec-form dict has exactly as many columns set to 1 as there are
matched endpoints, when those are duplicate-free and canonical. -/
theorem countP_flagsFor (M : List String) (hnd : M.Nodup)
    (hsub : ∀ c ∈ M, c ∈ CANONICAL_ENDPOINTS) :
    (flagsFor M).countP (fun kv => kv.2 == 1) = M.length := by
  have hinj : ∀ x ∈ CANONICAL_ENDPOINTS, ∀ y ∈ CANONICAL_ENDPOINTS,
      canonical_to_col x = canonical_to_col y → x = y :=
    List.inj_on_of_nodup_map canonical_cols_nodup
  have hMnd : (M.map canonical_to_col).Nodup :=
    hnd.map_on (fun x hx y hy hxy => hinj x (hsub x hx) y (hsub y hy) hxy)
  have hMsub : ∀ x ∈ M.map canonical_to_col, x ∈ CANONICAL_COLS := by
    intro x hx
    obtain ⟨c, hc, rfl⟩ := List.mem_map.mp hx
    exact List.mem_map_of_mem canonical_to_col (hsub c hc)
  have hcount : (flagsFor M).countP (fun kv => kv.2 == 1) =
      (CANONICAL_COLS.filter
        (fun col => col ∈ M.map canonical_to_col)).length := by
    rw [flagsFor, List.countP_map, ← List.countP_eq_length_filter]
    apply List.countP_congr
    intro col hcol
    by_cases h : col ∈ M.map canonical_to_col
    · simp only [Function.comp_apply, if_pos h, decide_eq_true h]
      simp
    · simp only [Function.comp_apply, if_neg h, decide_eq_false h]
      simp
  rw [hcount]
  have hperm : (CANONICAL_COLS.filter
      (fun col => decide (col ∈ M.map canonical_to_col))).Perm
        (M.map canonical_to_col) := by
    rw [List.perm_ext_iff_of_nodup (canonical_cols_nodup.filter _) hMnd]
    intro a
    simp only [List.mem_filter, decide_eq_true_eq]
    exact ⟨fun h => h.2, fun h => ⟨hMsub a h, h⟩⟩
  calc (CANONICAL_COLS.filter (fun col => col ∈ M.map canonical_to_col)).length
      = (M.map canonical_to_col).length := hperm.length_eq
    _ = M.length := List.length_map _ _

/-- C10: for every input row, Layer A's result carries exactly the 15
canonical endpoint flag columns, each valued 0 or 1 (defaulting to 0),
and `planned_endpoint_count` equals both the length of
`detected_endpoint_names` and the number of flag columns set to 1. -/
theorem c10_endpoint_flags_invariant (syn : List (String × String))
    (row : TrialRow) (client : Option LLMClient) :
    (annotate_endpoints_for_row row ⟨syn, CANONICAL_ENDPOINTS⟩ client).flags.map
        Prod.fst = CANONICAL_COLS ∧
    (∀ kv ∈ (annotate_endpoints_for_row row ⟨syn, CANONICAL_ENDPOINTS⟩ client).flags,
      kv.2 = 0 ∨ kv.2 = 1) ∧
    (annotate_endpoints_for_row row ⟨syn, CANONICAL_ENDPOINTS⟩ client).planned_endpoint_count =
      (annotate_endpoints_for_row row ⟨syn, CANONICAL_ENDPOINTS⟩ client).detected_endpoint_names.length ∧
    (annotate_endpoints_for_row row ⟨syn, CANONICAL_ENDPOINTS⟩ client).flags.countP
        (fun kv => kv.2 == 1) =
      (annotate_endpoints_for_row row ⟨syn, CANONICAL_ENDPOINTS⟩ client).planned_endpoint_count := by
  have hini : (⟨syn, CANONICAL_ENDPOINTS⟩ : EndpointResources).canonical.map
      (fun c => (canonical_to_col c, 0)) = flagsFor [] := by
    simp [flagsFor, CANONICAL_COLS, List.map_map, Function.comp_def]
  have hchar := epLoop_char ⟨syn, CANONICAL_ENDPOINTS⟩ client rfl
    (buildTexts (parse_outcome_cell row.planned_primary_outcomes ++
      parse_outcome_cell row.planned_secondary_outcomes)) []
    List.nodup_nil (by intro c hc; cases hc)
  simp only [annotate_endpoints_for_row]
  rw [hini]
  refine ⟨?_, ?_, trivial, ?_⟩
  · rw [hchar.2.2, flagsFor, List.map_map]
    simp [Function.comp_def]
  · intro kv hkv
    rw [hchar.2.2, flagsFor] at hkv
    obtain ⟨col, _, rfl⟩ := List.mem_map.mp hkv
    by_cases h : col ∈ (epLoop ⟨syn, CANONICAL_ENDPOINTS⟩ client
        (buildTexts (parse_outcome_cell row.planned_primary_outcomes ++
          parse_outcome_cell row.planned_secondary_outcomes)) []
        (flagsFor [])).1.map canonical_to_col
    · right; simp [h]
    · left; simp [h]
  · rw [hchar.2.2]
    exact countP_flagsFor _ hchar.1 hchar.2.1

/-- C10 witness: a row with free-text outcomes naming three endpoints. -/
theorem c10_endpoint_flags_invariant_witness :
    (annotate_endpoints_for_row c10Row ⟨[], CANONICAL_ENDPOINTS⟩ none).flags.map
        Prod.fst = CANONICAL_COLS ∧
    (annotate_endpoints_for_row c10Row ⟨[], CANONICAL_ENDPOINTS⟩ none).planned_endpoint_count =
      (annotate_endpoints_for_row c10Row ⟨[], CANONICAL_ENDPOINTS⟩ none).detected_endpoint_names.length ∧
    (annotate_endpoints_for_row c10Row ⟨[], CANONICAL_ENDPOINTS⟩ none).flags.countP
        (fun kv => kv.2 == 1) =
      (annotate_endpoints_for_row c10Row ⟨[], CANONICAL_ENDPOINTS⟩ none).planned_endpoint_count :=
  ⟨(c10_endpoint_flags_invariant [] c10Row none).1,
   (c10_endpoint_flags_invariant [] c10Row none).2.2.1,
   (c10_endpoint_flags_invariant [] c10Row none).2.2.2⟩

/-- Extending sites keeps the accumulator length. -/
theorem extendSitesAt_length (st : AccList α) (id : String) (sites : List SiteRec) :
    (extendSitesAt st id sites).length = st.length := by
  simp [extendSitesAt]

/-- Extending sites keeps the identifier order. -/
theorem extendSitesAt_keys (st : AccList α) (id : String) (sites : List SiteRec) :
    (extendSitesAt st id sites).map (fun e => e.1) = st.map (fun e => e.1) := by
  unfold extendSitesAt
  rw [List.map_map]
  apply List.map_congr_left
  intro e _
  by_cases h : e.1 = id
  · simp [h]
  · simp [h]

/-- Processing one study never shrinks the accumulator. -/
theorem ingestStudy_length_le (st : AccList α) (s : StudyRec α) :
    st.length ≤ (ingestStudy st s).length := by
  unfold ingestStudy
  cases s.trial with
  | none => exact le_rfl
  | some p =>
    dsimp only
    by_cases h : hasId st p.1 = true
    · rw [if_pos h, extendSitesAt_length]
    · rw [if_neg h, extendSitesAt_length]
      simp

/-- Folding a study list never shrinks the accumulator. -/
theorem foldl_ingest_length_le (l : List (StudyRec α)) :
    ∀ st : AccList α, st.length ≤ (l.foldl ingestStudy st).length := by
  induction l with
  | nil => intro st; exact le_rfl
  | cons s rest ih =>
    intro st
    rw [List.foldl_cons]
    exact le_trans (ingestStudy_length_le st s) (ih (ingestStudy st s))

/-- `accFind` on a cons cell. -/
theorem accFind_cons (e : String × α × List SiteRec)
    (rest : AccList α) (id : String) :
    accFind (e :: rest) id = if e.1 = id then some e.2 else accFind rest id := by
  unfold accFind
  by_cases h : e.1 = id
  · rw [List.find?_cons_of_pos _ (by simpa using h), if_pos h]
    rfl
  · rw [List.find?_cons_of_neg _ (by simpa using h), if_neg h]

/-- `extendSitesAt` on a cons cell. -/
theorem extendSitesAt_cons (e : String × α × List SiteRec) (rest : AccList α)
    (id : String) (sites : List SiteRec) :
    extendSitesAt (e :: rest) id sites =
      (if e.1 = id then (e.1, e.2.1, e.2.2 ++ sites) else e) ::
        extendSitesAt rest id sites := rfl

/-- `hasId` is the definedness of `accFind`. -/
theorem hasId_iff_accFind (st : AccList α) (id : String) :
    hasId st id = true ↔ (accFind st id).isSome := by
  induction st with
  | nil => simp [hasId, accFind]
  | cons e rest ih =>
    rw [accFind_cons]
    by_cases h : e.1 = id
    · simp [hasId, h]
    · rw [if_neg h]
      rw [← ih]
      simp [hasId, h]

/-- `accFind` under a site extension at the same identifier. -/
theorem accFind_extend_self (st : AccList α) (id : String) (sites : List SiteRec) :
    accFind (extendSitesAt st id sites) id =
      (accFind st id).map (fun p => (p.1, p.2 ++ sites)) := by
  induction st with
  | nil => rfl
  | cons e rest ih =>
    rw [extendSitesAt_cons]
    by_cases h : e.1 = id
    · rw [if_pos h, accFind_cons, accFind_cons, if_pos h,
        if_pos (show ((e.1, e.2.1, e.2.2 ++ sites) :
          String × α × List SiteRec).1 = id from h)]
      rfl
    · rw [if_neg h, accFind_cons, accFind_cons, if_neg h, if_neg h]
      exact ih

/-- `accFind` under a site extension at a different identifier. -/
theorem accFind_extend_other (st : AccList α) (id id2 : String)
    (sites : List SiteRec) (hne : id2 ≠ id) :
    accFind (extendSitesAt st id sites) id2 = accFind st id2 := by
  induction st with
  | nil => rfl
  | cons e rest ih =>
    rw [extendSitesAt_cons]
    by_cases h : e.1 = id
    · have h2 : ¬ e.1 = id2 := fun hx => hne (hx ▸ h)
      rw [if_pos h, accFind_cons, accFind_cons, if_neg h2,
        if_neg (show ¬ ((e.1, e.2.1, e.2.2 ++ sites) :
          String × α × List SiteRec).1 = id2 from h2)]
      exact ih
    · rw [if_neg h, accFind_cons, accFind_cons]
      by_cases h2 : e.1 = id2
      · rw [if_pos h2, if_pos h2]
      · rw [if_neg h2, if_neg h2]
        exact ih

/-- `accFind` over an appended fresh record. -/
theorem accFind_append_single (st : AccList α) (id0 : String) (f : α)
    (s0 : List SiteRec) (id : String) :
    accFind (st ++ [(id0, f, s0)]) id =
      match accFind st id with
      | some p => some p
      | none => if id0 = id then some (f, s0) else none := by
  induction st with
  | nil =>
    rw [List.nil_append, accFind_cons]
    rfl
  | cons e rest ih =>
    rw [List.cons_append, accFind_cons, accFind_cons]
    by_cases h : e.1 = id
    · rw [if_pos h, if_pos h]
    · rw [if_neg h, if_neg h]
      exact ih

/-- `sitesOf` skips a study without identifier. -/
theorem sitesOf_cons_none (id : String) (s : StudyRec α)
    (rest : List (StudyRec α)) (h : s.trial = none) :
    sitesOf id (s :: rest) = sitesOf id rest := by
  simp [sitesOf, List.filterMap_cons, h]

/-- `sitesOf` on a study with identifier. -/
theorem sitesOf_cons_some (id id0 : String) (f0 : α) (s : StudyRec α)
    (rest : List (StudyRec α)) (h : s.trial = some (id0, f0)) :
    sitesOf id (s :: rest) =
      (if id0 = id then s.sites else []) ++ sitesOf id rest := by
  by_cases hid : id0 = id
  · simp [sitesOf, List.filterMap_cons, h, hid]
  · simp [sitesOf, List.filterMap_cons, h, hid]

/-- `firstFieldsOf` skips a study without identifier. -/
theorem firstFieldsOf_cons_none (id : String) (s : StudyRec α)
    (rest : List (StudyRec α)) (h : s.trial = none) :
    firstFieldsOf id (s :: rest) = firstFieldsOf id rest := by
  simp [firstFieldsOf, List.filterMap_cons, h]

/-- `firstFieldsOf` on a study with identifier. -/
theorem firstFieldsOf_cons_some (id id0 : String) (f0 : α) (s : StudyRec α)
    (rest : List (StudyRec α)) (h : s.trial = some (id0, f0)) :
    firstFieldsOf id (s :: rest) =
      if id0 = id then some f0 else firstFieldsOf id rest := by
  by_cases hid : id0 = id
  · simp [firstFieldsOf, List.filterMap_cons, h, hid]
  · simp [firstFieldsOf, List.filterMap_cons, h, hid]

/-- Characterization of the accumulated entry of each identifier after
processing a study list: first-seen fields are retained and sites
accumulate across all sightings. -/
theorem foldl_ingest_accFind (l : List (StudyRec α)) :
    ∀ (st : AccList α) (id : String),
      accFind (l.foldl ingestStudy st) id =
        match accFind st id with
        | some p => some (p.1, p.2 ++ sitesOf id l)
        | none =>
          match firstFieldsOf id l with
          | some f => some (f, sitesOf id l)
          | none => none := by
  induction l with
  | nil =>
    intro st id
    cases h : accFind st id with
    | none => simp [sitesOf, firstFieldsOf, h]
    | some p => simp [sitesOf, h]
  | cons s rest ih =>
    intro st id
    rw [List.foldl_cons]
    cases htr : s.trial with
    | none =>
      rw [ih (ingestStudy st s) id,
        show ingestStudy st s = st by unfold ingestStudy; rw [htr],
        sitesOf_cons_none id s rest htr, firstFieldsOf_cons_none id s rest htr]
    | some p =>
      obtain ⟨id0, f0⟩ := p
      rw [ih (ingestStudy st s) id]
      by_cases hid : hasId st id0 = true
      · have hst : ingestStudy st s = extendSitesAt st id0 s.sites := by
          unfold ingestStudy; rw [htr]; dsimp only; rw [if_pos hid]
        rw [hst]
        by_cases heq : id0 = id
        · subst heq
          obtain ⟨q, hq⟩ := Option.isSome_iff_exists.mp
            ((hasId_iff_accFind st id0).mp hid)
          rw [accFind_extend_self, hq]
          rw [sitesOf_cons_some id0 id0 f0 s rest htr, if_pos rfl]
          simp [List.append_assoc]
        · rw [accFind_extend_other st id0 id s.sites
            (fun hx => heq (hx.symm)),
            sitesOf_cons_some id id0 f0 s rest htr, if_neg heq,
            firstFieldsOf_cons_some id id0 f0 s rest htr, if_neg heq,
            List.nil_append]
      · have hst : ingestStudy st s =
            extendSitesAt (st ++ [(id0, f0, [])]) id0 s.sites := by
          unfold ingestStudy; rw [htr]; dsimp only; rw [if_neg hid]
        have hnone : accFind st id0 = none := by
          cases h : accFind st id0 with
          | none => rfl
          | some q =>
            exact absurd ((hasId_iff_accFind st id0).mpr (by simp [h])) hid
        rw [hst]
        by_cases heq : id0 = id
        · subst heq
          rw [accFind_extend_self, accFind_append_single, hnone]
          rw [sitesOf_cons_some id0 id0 f0 s rest htr, if_pos rfl,
            firstFieldsOf_cons_some id0 id0 f0 s rest htr, if_pos rfl]
          simp
        · rw [accFind_extend_other _ id0 id s.sites (fun hx => heq hx.symm),
            accFind_append_single,
            sitesOf_cons_some id id0 f0 s rest htr, if_neg heq,
            firstFieldsOf_cons_some id id0 f0 s rest htr, if_neg heq,
            List.nil_append]
          cases h : accFind st id with
          | none => rw [if_neg heq]
          | some q => rfl

/-- `newIds` on a cons cell. -/
theorem newIds_cons (seen : List String) (s : StudyRec α)
    (rest : List (StudyRec α)) :
    newIds seen (s :: rest) =
      match s.trial with
      | none => newIds seen rest
      | some (id, _) =>
        if id ∈ seen then newIds seen rest
        else id :: newIds (seen ++ [id]) rest := rfl

/-- Identifier order after processing: existing keys, then the newly
sighted identifiers in arrival order. -/
theorem foldl_ingest_keys (l : List (StudyRec α)) :
    ∀ st : AccList α,
      (l.foldl ingestStudy st).map (fun e => e.1) =
        st.map (fun e => e.1) ++ newIds (st.map (fun e => e.1)) l := by
  induction l with
  | nil => intro st; simp [newIds]
  | cons s rest ih =>
    intro st
    rw [List.foldl_cons, newIds_cons]
    cases htr : s.trial with
    | none =>
      rw [show ingestStudy st s = st by unfold ingestStudy; rw [htr]]
      exact ih st
    | some p =>
      obtain ⟨id0, f0⟩ := p
      have hmem : hasId st id0 = true ↔ id0 ∈ st.map (fun e => e.1) := by
        unfold hasId
        rw [List.any_eq_true]
        constructor
        · rintro ⟨e, he, hpe⟩
          simp only [decide_eq_true_eq] at hpe
          exact hpe ▸ List.mem_map_of_mem _ he
        · intro h
          obtain ⟨e, he, hee⟩ := List.mem_map.mp h
          exact ⟨e, he, by simpa using hee⟩
      dsimp only
      by_cases hid : hasId st id0 = true
      · have hst : ingestStudy st s = extendSitesAt st id0 s.sites := by
          unfold ingestStudy; rw [htr]; dsimp only; rw [if_pos hid]
        rw [hst, ih _, extendSitesAt_keys, if_pos (hmem.mp hid)]
      · have hst : ingestStudy st s =
            extendSitesAt (st ++ [(id0, f0, [])]) id0 s.sites := by
          unfold ingestStudy; rw [htr]; dsimp only; rw [if_neg hid]
        rw [hst, ih _, extendSitesAt_keys,
          if_neg (fun hx => hid (hmem.mpr hx)), List.map_append]
        simp

/-- Newly recorded identifiers avoid the seen set and are duplicate-free. -/
theorem newIds_fresh_nodup (l : List (StudyRec α)) :
    ∀ seen : List String,
      (∀ x ∈ newIds seen l, x ∉ seen) ∧ (newIds seen l).Nodup := by
  induction l with
  | nil => intro seen; simp [newIds]
  | cons s rest ih =>
    intro seen
    rw [newIds_cons]
    cases htr : s.trial with
    | none => exact ih seen
    | some p =>
      obtain ⟨id0, f0⟩ := p
      dsimp only
      by_cases hid : id0 ∈ seen
      · rw [if_pos hid]
        exact ih seen
      · rw [if_neg hid]
        obtain ⟨hfresh, hnd⟩ := ih (seen ++ [id0])
        constructor
        · intro x hx hxs
          rcases List.mem_cons.mp hx with rfl | hxt
          · exact hid hxs
          · exact hfresh x hxt (List.mem_append_left _ hxs)
        · rw [List.nodup_cons]
          refine ⟨?_, hnd⟩
          intro hin
          exact hfresh id0 hin (List.mem_append_right _ (by simp))

/-- On an accumulator with duplicate-free keys, `find?` at a member's key
returns that member. -/
theorem find_self_of_nodup_keys (st : AccList α)
    (hnd : (st.map (fun e => e.1)).Nodup) :
    ∀ e ∈ st, st.find? (fun x => x.1 = e.1) = some e := by
  induction st with
  | nil => intro e he; cases he
  | cons a rest ih =>
    intro e he
    rw [List.map_cons, List.nodup_cons] at hnd
    rcases List.mem_cons.mp he with rfl | het
    · rw [List.find?_cons_of_pos _ (by simp)]
    · have hne : ¬ a.1 = e.1 := by
        intro hx
        exact hnd.1 (hx ▸ List.mem_map_of_mem (fun x => x.1) het)
      rw [List.find?_cons_of_neg _ (by simpa using hne)]
      exact ih hnd.2 e het

/-- Site deduplication counts one site per distinct attribute tuple. -/
theorem dedupSites_length (l : List SiteRec) :
    ∀ seen, (dedupSitesAux seen l).length = (dedupFAux seen (l.map siteKey)).length := by
  induction l with
  | nil => intro seen; rfl
  | cons s rest ih =>
    intro seen
    rw [List.map_cons]
    unfold dedupSitesAux dedupFAux
    by_cases h : siteKey s ∈ seen
    · rw [if_pos h, if_pos h]
      exact ih seen
    · rw [if_neg h, if_neg h]
      simp only [List.length_cons]
      rw [ih (seen ++ [siteKey s])]

/-- Unfold lemmas for `ingestStudy`. -/
theorem ingestStudy_none (st : AccList α) (s : StudyRec α)
    (h : s.trial = none) : ingestStudy st s = st := by
  unfold ingestStudy; rw [h]

theorem ingestStudy_old (st : AccList α) (s : StudyRec α) (id : String) (f : α)
    (h : s.trial = some (id, f)) (hid : hasId st id = true) :
    ingestStudy st s = extendSitesAt st id s.sites := by
  unfold ingestStudy; rw [h]; dsimp only; rw [if_pos hid]

theorem ingestStudy_new (st : AccList α) (s : StudyRec α) (id : String) (f : α)
    (h : s.trial = some (id, f)) (hid : ¬ hasId st id = true) :
    ingestStudy st s = extendSitesAt (st ++ [(id, f, [])]) id s.sites := by
  unfold ingestStudy; rw [h]; dsimp only; rw [if_neg hid]

/-- When the cap is not reached, the inner study loop is a plain fold. -/
theorem ingestPage_eq_foldl (maxR : Nat) (l : List (StudyRec α)) :
    ∀ st : AccList α, (l.foldl ingestStudy st).length < maxR →
      ingestPage maxR st l = l.foldl ingestStudy st := by
  induction l with
  | nil => intro st _; rfl
  | cons s rest ih =>
    intro st hcap
    rw [List.foldl_cons] at hcap ⊢
    simp only [ingestPage]
    cases htr : s.trial with
    | none =>
      dsimp only
      rw [ingestStudy_none st s htr] at hcap ⊢
      exact ih st hcap
    | some p =>
      obtain ⟨id0, f0⟩ := p
      dsimp only
      by_cases hid : hasId st id0 = true
      · rw [hid, if_pos rfl]
        rw [ingestStudy_old st s id0 f0 htr hid] at hcap ⊢
        exact ih _ hcap
      · have hid2 : hasId st id0 = false := by simpa using hid
        rw [hid2, if_neg Bool.false_ne_true]
        rw [ingestStudy_new st s id0 f0 htr hid] at hcap ⊢
        have hbound : (st ++ [(id0, f0, [])]).length ≤
            (rest.foldl ingestStudy
              (extendSitesAt (st ++ [(id0, f0, [])]) id0 s.sites)).length := by
          calc (st ++ [(id0, f0, [])]).length
              = (extendSitesAt (st ++ [(id0, f0, [])]) id0 s.sites).length :=
                (extendSitesAt_length _ _ _).symm
            _ ≤ _ := foldl_ingest_length_le rest _
        rw [if_neg (by omega)]
        exact ih _ hcap

/-- When no page is empty and the cap is not reached, the pagination loop
is a plain fold over the concatenation of the pages. -/
theorem fetchLoop_eq_foldl (maxR : Nat) (pages : List (List (StudyRec α))) :
    ∀ st : AccList α, (∀ p ∈ pages, p ≠ []) →
      (pages.flatten.foldl ingestStudy st).length < maxR →
      fetchLoop maxR st pages = pages.flatten.foldl ingestStudy st := by
  induction pages with
  | nil => intro st _ _; rfl
  | cons page rest ih =>
    intro st hne hcap
    rw [List.flatten_cons, List.foldl_append] at hcap ⊢
    simp only [fetchLoop]
    have hpage : page.isEmpty = false := by
      cases hp : page with
      | nil => exact absurd rfl (hne [] (by rw [← hp]; simp [hp]))
      | cons a l => rfl
    rw [if_neg (by rw [hpage]; exact Bool.false_ne_true)]
    have hpagecap : (page.foldl ingestStudy st).length < maxR :=
      lt_of_le_of_lt (foldl_ingest_length_le rest.flatten _) hcap
    rw [ingestPage_eq_foldl maxR page st hpagecap]
    rw [if_neg (by
      have := lt_of_le_of_lt (foldl_ingest_length_le rest.flatten
        (page.foldl ingestStudy st)) hcap
      omega)]
    exact ih (page.foldl ingestStudy st)
      (fun p hp => hne p (List.mem_cons_of_mem _ hp)) hcap

/-- C8: with pagination delivering non-empty pages and the record cap not
reached, the raw accumulated table has exactly one row per sighted
`nct_id`; each row keeps the field values of the identifier's first
sighting; and `site_count` counts the sites unioned across all sightings
of that identifier, with observations sharing the full (facility, city,
state, postal code, country, status) tuple counted exactly once. -/
theorem c8_retrieval_dedup (pages : List (List (StudyRec α))) (maxRecords : Nat)
    (hne : ∀ p ∈ pages, p ≠ [])
    (hcap : (pages.flatten.foldl ingestStudy ([] : AccList α)).length < maxRecords) :
    ((fetch_trials_raw pages maxRecords).map (fun r => r.nct_id)).Nodup ∧
    (∀ s ∈ pages.flatten, ∀ id f, s.trial = some (id, f) →
      ∃ r ∈ fetch_trials_raw pages maxRecords, r.nct_id = id) ∧
    (∀ r ∈ fetch_trials_raw pages maxRecords,
      firstFieldsOf r.nct_id pages.flatten = some r.fields) ∧
    (∀ r ∈ fetch_trials_raw pages maxRecords,
      r.site_count = (dedupF ((sitesOf r.nct_id pages.flatten).map siteKey)).length) := by
  have hfl : fetchLoop maxRecords [] pages = pages.flatten.foldl ingestStudy [] :=
    fetchLoop_eq_foldl maxRecords pages [] hne hcap
  have hrows : fetch_trials_raw pages maxRecords =
      buildRows (pages.flatten.foldl ingestStudy []) := by
    rw [fetch_trials_raw, hfl]
  have hkeys : (pages.flatten.foldl ingestStudy ([] : AccList α)).map (fun e => e.1) =
      newIds [] pages.flatten := by
    rw [foldl_ingest_keys]
    simp [newIds]
  have hnodup : ((pages.flatten.foldl ingestStudy ([] : AccList α)).map
      (fun e => e.1)).Nodup := by
    rw [hkeys]
    exact (newIds_fresh_nodup pages.flatten []).2
  have hrowkeys : (buildRows (pages.flatten.foldl ingestStudy [])).map
      (fun r => r.nct_id) =
      (pages.flatten.foldl ingestStudy ([] : AccList α)).map (fun e => e.1) := by
    rw [buildRows, List.map_map]
    rfl
  have hchar : ∀ id, accFind (pages.flatten.foldl ingestStudy []) id =
      match firstFieldsOf id pages.flatten with
      | some f => some (f, sitesOf id pages.flatten)
      | none => none := by
    intro id
    rw [foldl_ingest_accFind]
    rfl
  have hentry : ∀ e ∈ pages.flatten.foldl ingestStudy ([] : AccList α),
      firstFieldsOf e.1 pages.flatten = some e.2.1 ∧
      e.2.2 = sitesOf e.1 pages.flatten := by
    intro e he
    have h1 : accFind (pages.flatten.foldl ingestStudy []) e.1 = some e.2 := by
      unfold accFind
      rw [find_self_of_nodup_keys _ hnodup e he]
      rfl
    have h2 := hchar e.1
    rw [h1] at h2
    cases hfo : firstFieldsOf e.1 pages.flatten with
    | none =>
      rw [hfo] at h2
      exact absurd h2 (by simp)
    | some g =>
      rw [hfo] at h2
      simp only at h2
      have h3 : e.2 = (g, sitesOf e.1 pages.flatten) := by
        injection h2 with h4
      rw [h3]
      exact ⟨rfl, rfl⟩
  refine ⟨?_, ?_, ?_, ?_⟩
  · rw [hrows, hrowkeys]
    exact hnodup
  · intro s hs id f htr
    have hfo : (firstFieldsOf id pages.flatten).isSome := by
      have hmemf : f ∈ pages.flatten.filterMap (fun s =>
          match s.trial with
          | some (id', f') => if id' = id then some f' else none
          | none => none) :=
        List.mem_filterMap.mpr ⟨s, hs, by rw [htr]; simp⟩
      unfold firstFieldsOf
      cases hl : pages.flatten.filterMap (fun s =>
          match s.trial with
          | some (id', f') => if id' = id then some f' else none
          | none => none) with
      | nil => rw [hl] at hmemf; cases hmemf
      | cons a t => simp
    obtain ⟨g, hg⟩ := Option.isSome_iff_exists.mp hfo
    have hsome : accFind (pages.flatten.foldl ingestStudy []) id =
        some (g, sitesOf id pages.flatten) := by
      rw [hchar id, hg]
    have hfind : ((pages.flatten.foldl ingestStudy ([] : AccList α)).find?
        (fun e => e.1 = id)).isSome := by
      unfold accFind at hsome
      cases hf : (pages.flatten.foldl ingestStudy ([] : AccList α)).find?
          (fun e => e.1 = id) with
      | none => rw [hf] at hsome; cases hsome
      | some e => simp
    obtain ⟨e, he⟩ := Option.isSome_iff_exists.mp hfind
    have hee : e ∈ pages.flatten.foldl ingestStudy ([] : AccList α) :=
      List.mem_of_find?_eq_some he
    have heid : e.1 = id := by simpa using List.find?_some he
    rw [hrows, buildRows]
    exact ⟨_, List.mem_map_of_mem _ hee, heid⟩
  · intro r hr
    rw [hrows, buildRows] at hr
    obtain ⟨e, he, rfl⟩ := List.mem_map.mp hr
    exact (hentry e he).1
  · intro r hr
    rw [hrows, buildRows] at hr
    obtain ⟨e, he, rfl⟩ := List.mem_map.mp hr
    show (dedupSites e.2.2).length = _
    rw [(hentry e he).2, dedupSites, dedupSites_length, dedupF]

/-- C8 witness: two sightings of one trial across two pages, the site
tuple repeated, give a single row (duplicate-free identifiers). -/
theorem c8_retrieval_dedup_witness :
    ((fetch_trials_raw c8Pages 1000).map (fun r => r.nct_id)).Nodup :=
  (c8_retrieval_dedup c8Pages 1000 (by decide) (by decide)).1
